import Mathlib

/-!
Verification of the codex multi-account switch runtime core.

This file shallowly embeds the account rotation system, the account manager
and persistence layer, the model normalizer, the request transformer, the
orphaned-tool-output repair, the 404 usage-limit remap, the URL rewrite and
the SSE-to-JSON converter, and proves (or refutes) the specification claims
about them.

Modelling conventions:
- JavaScript numbers are modelled by the rationals; millisecond timestamps
  returned by Date.now() become an explicit `now` parameter.
- Time-dependent tracker reads (HealthScoreTracker.getScore,
  TokenBucketTracker.getTokens) are modelled as function parameters giving
  the effective value at selection time.
- JavaScript's stable Array.prototype.sort is modelled by a stable insertion
  sort; Map insertion-order semantics are modelled by association lists.
- In-place mutation of an object is modelled by returning the updated value.
-/

namespace CodexSwitch

/-! ## Rotation system (src/lib/accounts/rotation.ts) -/

/-- Metrics snapshot handed to the selectors, mirroring `AccountMetrics`. -/
structure AccountMetrics where
  index : Nat
  lastUsed : ℚ
  healthScore : ℚ
  isRateLimited : Bool
  enabled : Bool
deriving Repr, DecidableEq

/-- Scored candidate as built inside `selectHybridAccount`. -/
structure ScoredAccount where
  index : Nat
  baseScore : ℚ
  score : ℚ
  isCurrent : Bool
deriving Repr, DecidableEq

def STICKINESS_BONUS : ℚ := 150

def SWITCH_THRESHOLD : ℚ := 100

/-- The candidate filter of `selectHybridAccount`: not rate-limited, enabled,
healthy enough, and the token bucket holds at least one token
(`tokenTracker.hasTokens(acc.index)` with cost 1). -/
def hybridFilter (tokens : Nat → ℚ) (minHealthScore : ℚ) (acc : AccountMetrics) : Bool :=
  !acc.isRateLimited && acc.enabled && decide (minHealthScore ≤ acc.healthScore) &&
    decide (1 ≤ tokens acc.index)

/-- Scoring of one candidate: health (2x) + tokens (5x, as a percentage of
`maxTokens`) + freshness (0.1x of seconds since last use, capped at 3600),
clamped below at 0; the stickiness bonus is added for the active account. -/
def scoreCandidate (tokens : Nat → ℚ) (maxTokens : ℚ) (now : ℚ) (currentIndex : Option Nat)
    (acc : AccountMetrics) : ScoredAccount :=
  let healthComponent := acc.healthScore * 2
  let tokenComponent := tokens acc.index / maxTokens * 100 * 5
  let secondsSinceUsed := (now - acc.lastUsed) / 1000
  let freshnessComponent := min secondsSinceUsed 3600 * (1/10)
  let baseScore := max 0 (healthComponent + tokenComponent + freshnessComponent)
  let isCurrent := currentIndex == some acc.index
  { index := acc.index
    baseScore := baseScore
    score := baseScore + (if isCurrent then STICKINESS_BONUS else 0)
    isCurrent := isCurrent }

/-- Stable insertion into a descending-by-score list: an element is placed
after all elements with a score at least as large, matching the stable
JavaScript `sort((a, b) => b.score - a.score)`. -/
def insertScoredDesc (x : ScoredAccount) : List ScoredAccount → List ScoredAccount
  | [] => [x]
  | y :: ys => if x.score ≤ y.score then y :: insertScoredDesc x ys else x :: y :: ys

/-- Stable descending sort by score. -/
def sortScoredDesc (l : List ScoredAccount) : List ScoredAccount :=
  l.foldl (fun acc x => insertScoredDesc x acc) []

/-- The scored candidate list of `selectHybridAccount` before sorting. -/
def hybridScored (accounts : List AccountMetrics) (tokens : Nat → ℚ) (maxTokens now : ℚ)
    (currentIndex : Option Nat) (minHealthScore : ℚ) : List ScoredAccount :=
  (accounts.filter (hybridFilter tokens minHealthScore)).map
    (scoreCandidate tokens maxTokens now currentIndex)

/-- `selectHybridAccount` from rotation.ts: filter candidates, score them,
sort descending, and only leave the current account when the best other
candidate's base-score advantage reaches `SWITCH_THRESHOLD`. -/
def selectHybridAccount (accounts : List AccountMetrics) (tokens : Nat → ℚ)
    (maxTokens now : ℚ) (currentIndex : Option Nat) (minHealthScore : ℚ) : Option Nat :=
  let scored := sortScoredDesc (hybridScored accounts tokens maxTokens now currentIndex minHealthScore)
  if (accounts.filter (hybridFilter tokens minHealthScore)).isEmpty then none else
  match scored.head? with
  | none => none
  | some best =>
    match scored.find? (fun s => s.isCurrent) with
    | some currentCandidate =>
      if !best.isCurrent && decide (best.baseScore - currentCandidate.baseScore < SWITCH_THRESHOLD)
      then some currentCandidate.index
      else some best.index
    | none => some best.index

/-- `selectRoundRobin`: pick the element after the current one in circular
order over the filtered list (JavaScript `findIndex` returning -1 maps the
absent case to position 0). -/
def selectRoundRobin (accounts : List AccountMetrics) (currentIndex : Option Nat) : Option Nat :=
  let available := accounts.filter (fun a => !a.isRateLimited && a.enabled)
  match available with
  | [] => none
  | a0 :: _ =>
    match currentIndex with
    | none => some a0.index
    | some c =>
      let nextPos := (match available.findIdx? (fun a => a.index == c) with
        | some p => p + 1
        | none => 0) % available.length
      some ((available.getD nextPos a0).index)

/-- `selectSticky`: keep the current account while it is available, else the
first available one. -/
def selectSticky (accounts : List AccountMetrics) (currentIndex : Option Nat) : Option Nat :=
  let available := accounts.filter (fun a => !a.isRateLimited && a.enabled)
  match available with
  | [] => none
  | a0 :: _ =>
    match currentIndex with
    | some c =>
      match available.find? (fun a => a.index == c) with
      | some cur => some cur.index
      | none => some a0.index
    | none => some a0.index

/-- Largest base score in a list of scored candidates (0 for the empty
list; only used on non-empty lists). -/
def maxBaseScore : List ScoredAccount → ℚ
  | [] => 0
  | e :: es => es.foldl (fun m x => max m x.baseScore) e.baseScore

/-! ## String utilities

JavaScript `toLowerCase`, `includes`, and `replace` (first occurrence, string
pattern) modelled over character lists. `Char.toLower` performs the ASCII
mapping, which agrees with JavaScript on the ASCII strings at play. -/

/-- ASCII lower-casing of a string, character by character. -/
def asciiLower (s : String) : String :=
  String.mk (s.data.map Char.toLower)

/-- Split a character list at every occurrence of the separator, keeping
empty segments, as JavaScript `split` with a one-character separator does. -/
def splitListOn (sep : Char) : List Char → List (List Char)
  | [] => [[]]
  | c :: rest =>
    let r := splitListOn sep rest
    if c == sep then [] :: r
    else
      match r with
      | h :: t => (c :: h) :: t
      | [] => [[c]]

/-- JavaScript `s.split(sep)` for a one-character separator. -/
def strSplitOn (s : String) (sep : Char) : List String :=
  (splitListOn sep s.data).map String.mk

/-- Does `pat` occur as a contiguous run inside `l`? -/
def listHasInfix (pat : List Char) : List Char → Bool
  | [] => pat.isEmpty
  | c :: rest => pat.isPrefixOf (c :: rest) || listHasInfix pat rest

/-- JavaScript `s.includes(pat)`. -/
def strIncludes (s pat : String) : Bool :=
  listHasInfix pat.data s.data

/-- Replace the first occurrence of `pat` by `repl`, leaving the string
unchanged when `pat` does not occur: JavaScript `String.prototype.replace`
with a string pattern. -/
def replaceFirstList (pat repl : List Char) : List Char → List Char
  | [] => []
  | c :: rest =>
    if pat.isPrefixOf (c :: rest) then repl ++ (c :: rest).drop pat.length
    else c :: replaceFirstList pat repl rest

/-- Index of the first occurrence of `pat` in the list, if any. -/
def idxOfSub (pat : List Char) : List Char → Option Nat
  | [] => if pat.isEmpty then some 0 else none
  | c :: rest =>
    if pat.isPrefixOf (c :: rest) then some 0
    else (idxOfSub pat rest).map (· + 1)

/-- First-occurrence deduplication, the order produced by
`Array.from(new Set(list))`. -/
def dedupSeen : List String → List String → List String
  | _, [] => []
  | seen, x :: xs =>
    if seen.contains x then dedupSeen seen xs else x :: dedupSeen (x :: seen) xs

/-- First-occurrence deduplication, the order produced by
`Array.from(new Set(list))`. -/
def dedupFirst (l : List String) : List String :=
  dedupSeen [] l

/-- Join a list of strings with a separator. -/
def joinWith (sep : String) : List String → String
  | [] => ""
  | [x] => x
  | x :: y :: xs => x ++ sep ++ joinWith sep (y :: xs)

/-! ## Model map and normalizer (src/lib/request/helpers/model-map.ts and
src/lib/request/request-transformer.ts) -/

/-- `MODEL_MAP`: model config IDs to normalized API model names. -/
def MODEL_MAP : List (String × String) :=
  [("gpt-5.1-codex", "gpt-5.1-codex"),
   ("gpt-5.1-codex-low", "gpt-5.1-codex"),
   ("gpt-5.1-codex-medium", "gpt-5.1-codex"),
   ("gpt-5.1-codex-high", "gpt-5.1-codex"),
   ("gpt-5.1-codex-max", "gpt-5.1-codex-max"),
   ("gpt-5.1-codex-max-low", "gpt-5.1-codex-max"),
   ("gpt-5.1-codex-max-medium", "gpt-5.1-codex-max"),
   ("gpt-5.1-codex-max-high", "gpt-5.1-codex-max"),
   ("gpt-5.1-codex-max-xhigh", "gpt-5.1-codex-max"),
   ("gpt-5.2", "gpt-5.2"),
   ("gpt-5.2-none", "gpt-5.2"),
   ("gpt-5.2-low", "gpt-5.2"),
   ("gpt-5.2-medium", "gpt-5.2"),
   ("gpt-5.2-high", "gpt-5.2"),
   ("gpt-5.2-xhigh", "gpt-5.2"),
   ("gpt-5.2-codex", "gpt-5.2-codex"),
   ("gpt-5.2-codex-low", "gpt-5.2-codex"),
   ("gpt-5.2-codex-medium", "gpt-5.2-codex"),
   ("gpt-5.2-codex-high", "gpt-5.2-codex"),
   ("gpt-5.2-codex-xhigh", "gpt-5.2-codex"),
   ("gpt-5.1-codex-mini", "gpt-5.1-codex-mini"),
   ("gpt-5.1-codex-mini-medium", "gpt-5.1-codex-mini"),
   ("gpt-5.1-codex-mini-high", "gpt-5.1-codex-mini"),
   ("gpt-5.1", "gpt-5.1"),
   ("gpt-5.1-none", "gpt-5.1"),
   ("gpt-5.1-low", "gpt-5.1"),
   ("gpt-5.1-medium", "gpt-5.1"),
   ("gpt-5.1-high", "gpt-5.1"),
   ("gpt-5.1-chat-latest", "gpt-5.1"),
   ("gpt-5-codex", "gpt-5.1-codex"),
   ("codex-mini-latest", "gpt-5.1-codex-mini"),
   ("gpt-5-codex-mini", "gpt-5.1-codex-mini"),
   ("gpt-5-codex-mini-medium", "gpt-5.1-codex-mini"),
   ("gpt-5-codex-mini-high", "gpt-5.1-codex-mini"),
   ("gpt-5", "gpt-5.1"),
   ("gpt-5-mini", "gpt-5.1"),
   ("gpt-5-nano", "gpt-5.1")]

/-- `getNormalizedModel`: exact map hit first, then a case-insensitive key
scan. -/
def getNormalizedModel (modelId : String) : Option String :=
  match MODEL_MAP.lookup modelId with
  | some v => some v
  | none =>
    match MODEL_MAP.find? (fun kv => asciiLower kv.1 == asciiLower modelId) with
    | some kv => some kv.2
    | none => none

/-- Strip a provider prefix: split on `/` and keep the last segment. -/
def stripProvider (m : String) : String :=
  if m.data.contains '/' then (strSplitOn m '/').getLastD "" else m

/-- The prioritised substring ladder of `normalizeModel`, applied to the
lower-cased model id. -/
def substringLadder (n : String) : String :=
  if strIncludes n "gpt-5.2-codex" || strIncludes n "gpt 5.2 codex" then "gpt-5.2-codex"
  else if strIncludes n "gpt-5.2" || strIncludes n "gpt 5.2" then "gpt-5.2"
  else if strIncludes n "gpt-5.1-codex-max" || strIncludes n "gpt 5.1 codex max" then "gpt-5.1-codex-max"
  else if strIncludes n "gpt-5.1-codex-mini" || strIncludes n "gpt 5.1 codex mini" then "gpt-5.1-codex-mini"
  else if strIncludes n "codex-mini-latest" || strIncludes n "gpt-5-codex-mini" || strIncludes n "gpt 5 codex mini" then "codex-mini-latest"
  else if strIncludes n "gpt-5.1-codex" || strIncludes n "gpt 5.1 codex" then "gpt-5.1-codex"
  else if strIncludes n "gpt-5.1" || strIncludes n "gpt 5.1" then "gpt-5.1"
  else if strIncludes n "codex" then "gpt-5.1-codex"
  else if strIncludes n "gpt-5" || strIncludes n "gpt 5" then "gpt-5.1"
  else "gpt-5.1"

/-- `normalizeModel` on a present, non-empty model string. -/
def normalizeModelStr (m : String) : String :=
  if m == "" then "gpt-5.1" else
  match getNormalizedModel (stripProvider m) with
  | some mapped => mapped
  | none => substringLadder (asciiLower (stripProvider m))

/-- `normalizeModel` from request-transformer.ts. A missing or empty model is
falsy and yields the default; a provider prefix is stripped at the last `/`;
then the map, then the prioritised substring ladder. -/
def normalizeModel : Option String → String
  | none => "gpt-5.1"
  | some m => normalizeModelStr m

/-- The set of strings `normalizeModel` can return. -/
def canonicalModels : List String :=
  ["gpt-5.1-codex", "gpt-5.1-codex-max", "gpt-5.2", "gpt-5.2-codex",
   "gpt-5.1-codex-mini", "gpt-5.1", "codex-mini-latest"]

/-! ## URL rewrite (src/lib/request/helpers/model-map.ts, fetch helpers) -/

/-- `URL_PATHS.RESPONSES`. -/
def RESPONSES_PATH : String := "/responses"

/-- `URL_PATHS.CODEX_RESPONSES`. -/
def CODEX_RESPONSES_PATH : String := "/codex/responses"

/-- `rewriteUrlForCodex`: `url.replace(URL_PATHS.RESPONSES,
URL_PATHS.CODEX_RESPONSES)` — JavaScript `replace` with a string pattern
rewrites only the first occurrence. -/
def rewriteUrlForCodex (url : String) : String :=
  String.mk (replaceFirstList RESPONSES_PATH.data CODEX_RESPONSES_PATH.data url.data)

/-! ## JSON values, parsing and serialisation

`JSON.parse` / `JSON.stringify` are modelled over an explicit JSON value
type. The parser covers the JSON subset exercised by this program: null,
booleans, integer numbers, strings with the single-character escapes,
arrays and objects; fractional or exponent numerals and `\u` escapes are
rejected (they play no role in any theorem below). -/

inductive Json where
  | null : Json
  | bool (b : Bool) : Json
  | num (n : Int) : Json
  | str (s : String) : Json
  | arr (elems : List Json) : Json
  | obj (fields : List (String × Json)) : Json
deriving Repr

/-- JSON / JavaScript whitespace skipping. -/
def skipWs (l : List Char) : List Char :=
  l.dropWhile (fun c => c == ' ' || c == '\t' || c == '\n' || c == '\r')

/-- Expect a literal run of characters. -/
def expectLit (lit l : List Char) : Option (List Char) :=
  if lit.isPrefixOf l then some (l.drop lit.length) else none

/-- Parse the body of a JSON string after the opening quote. -/
def parseStrAux : Nat → List Char → List Char → Option (List Char × List Char)
  | 0, _, _ => none
  | Nat.succ fuel, acc, l =>
    match l with
    | [] => none
    | '"' :: rest => some (acc.reverse, rest)
    | '\\' :: e :: rest =>
      if e == '"' then parseStrAux fuel ('"' :: acc) rest
      else if e == '\\' then parseStrAux fuel ('\\' :: acc) rest
      else if e == '/' then parseStrAux fuel ('/' :: acc) rest
      else if e == 'n' then parseStrAux fuel ('\n' :: acc) rest
      else if e == 't' then parseStrAux fuel ('\t' :: acc) rest
      else if e == 'r' then parseStrAux fuel ('\r' :: acc) rest
      else none
    | c :: rest => parseStrAux fuel (c :: acc) rest

def natOfDigits (ds : List Char) : Nat :=
  ds.foldl (fun n c => n * 10 + (c.toNat - 48)) 0

/-- A numeral may not continue with a fraction or exponent in the modelled
subset. -/
def numTerminator : List Char → Bool
  | [] => true
  | c :: _ => !(c == '.' || c == 'e' || c == 'E')

mutual

def parseVal : Nat → List Char → Option (Json × List Char)
  | 0, _ => none
  | Nat.succ fuel, input =>
    let l := skipWs input
    match l with
    | [] => none
    | c :: rest =>
      if c == 'n' then (expectLit ['u', 'l', 'l'] rest).map (fun r => (Json.null, r))
      else if c == 't' then (expectLit ['r', 'u', 'e'] rest).map (fun r => (Json.bool true, r))
      else if c == 'f' then (expectLit ['a', 'l', 's', 'e'] rest).map (fun r => (Json.bool false, r))
      else if c == '"' then
        (parseStrAux (rest.length + 1) [] rest).map (fun p => (Json.str (String.mk p.1), p.2))
      else if c == '[' then
        match skipWs rest with
        | ']' :: r => some (Json.arr [], r)
        | l1 => (parseElems fuel l1).map (fun p => (Json.arr p.1, p.2))
      else if c == '{' then
        match skipWs rest with
        | '}' :: r => some (Json.obj [], r)
        | l1 => (parseFields fuel l1).map (fun p => (Json.obj p.1, p.2))
      else if c == '-' then
        match rest.takeWhile Char.isDigit, rest.dropWhile Char.isDigit with
        | [], _ => none
        | ds, r =>
          if numTerminator r then some (Json.num (-(Int.ofNat (natOfDigits ds))), r) else none
      else if c.isDigit then
        match l.takeWhile Char.isDigit, l.dropWhile Char.isDigit with
        | ds, r =>
          if numTerminator r then some (Json.num (Int.ofNat (natOfDigits ds)), r) else none
      else none

def parseElems : Nat → List Char → Option (List Json × List Char)
  | 0, _ => none
  | Nat.succ fuel, l =>
    (parseVal fuel l).bind (fun p =>
      match skipWs p.2 with
      | ',' :: r => (parseElems fuel r).map (fun q => (p.1 :: q.1, q.2))
      | ']' :: r => some ([p.1], r)
      | _ => none)

def parseFields : Nat → List Char → Option (List (String × Json) × List Char)
  | 0, _ => none
  | Nat.succ fuel, l =>
    match skipWs l with
    | '"' :: rest =>
      (parseStrAux (rest.length + 1) [] rest).bind (fun kp =>
        match skipWs kp.2 with
        | ':' :: r =>
          (parseVal fuel r).bind (fun p =>
            match skipWs p.2 with
            | ',' :: r2 => (parseFields fuel r2).map (fun q => ((String.mk kp.1, p.1) :: q.1, q.2))
            | '}' :: r2 => some ([(String.mk kp.1, p.1)], r2)
            | _ => none)
        | _ => none)
    | _ => none

end

/-- `JSON.parse`, failing on trailing garbage. -/
def parseJson (s : String) : Option Json :=
  match parseVal (2 * s.data.length + 2) s.data with
  | some (j, rest) => if (skipWs rest).isEmpty then some j else none
  | none => none

def digitChar (n : Nat) : Char :=
  Char.ofNat (48 + n)

def natToStrAux : Nat → Nat → List Char
  | 0, _ => []
  | Nat.succ fuel, n =>
    if n < 10 then [digitChar n] else natToStrAux fuel (n / 10) ++ [digitChar (n % 10)]

def natToStr (n : Nat) : String :=
  String.mk (natToStrAux (n + 1) n)

def intToStr : Int → String
  | Int.ofNat n => natToStr n
  | Int.negSucc m => "-" ++ natToStr (m + 1)

/-- Escaping of one character inside a serialised JSON string. -/
def jsonEscapeChar (c : Char) : List Char :=
  if c == '"' then ['\\', '"']
  else if c == '\\' then ['\\', '\\']
  else if c == '\n' then ['\\', 'n']
  else if c == '\t' then ['\\', 't']
  else if c == '\r' then ['\\', 'r']
  else [c]

def jsonQuote (s : String) : String :=
  "\"" ++ String.mk (s.data.flatMap jsonEscapeChar) ++ "\""

mutual

/-- `JSON.stringify` (no indentation). -/
def jsonStringify : Json → String
  | Json.null => "null"
  | Json.bool true => "true"
  | Json.bool false => "false"
  | Json.num n => intToStr n
  | Json.str s => jsonQuote s
  | Json.arr l => "[" ++ stringifyElems l ++ "]"
  | Json.obj l => "\x7b" ++ stringifyFields l ++ "\x7d"

def stringifyElems : List Json → String
  | [] => ""
  | [x] => jsonStringify x
  | x :: y :: xs => jsonStringify x ++ "," ++ stringifyElems (y :: xs)

def stringifyFields : List (String × Json) → String
  | [] => ""
  | [(k, v)] => jsonQuote k ++ ":" ++ jsonStringify v
  | (k, v) :: y :: xs => jsonQuote k ++ ":" ++ jsonStringify v ++ "," ++ stringifyFields (y :: xs)

end

mutual

/-- JavaScript string coercion `String(v)` of a JSON value, as used by
`.toString()` on the extracted error code. -/
def jsToString : Json → String
  | Json.null => "null"
  | Json.bool true => "true"
  | Json.bool false => "false"
  | Json.num n => intToStr n
  | Json.str s => s
  | Json.arr l => jsToStringElems l
  | Json.obj _ => "[object Object]"

def jsToStringElems : List Json → String
  | [] => ""
  | [x] => jsToString x
  | x :: y :: xs => jsToString x ++ "," ++ jsToStringElems (y :: xs)

end

/-- Property access `j[k]` on a parsed JSON value; `JSON.parse` keeps the
last duplicate key, hence the reversed lookup. -/
def jGet (j : Json) (k : String) : Option Json :=
  match j with
  | Json.obj fields => fields.reverse.lookup k
  | _ => none

/-- JavaScript truthiness of a JSON value. -/
def jsTruthy : Json → Bool
  | Json.null => false
  | Json.bool b => b
  | Json.num n => !(n == 0)
  | Json.str s => !(s == "")
  | Json.arr _ => true
  | Json.obj _ => true

/-! ## SSE to JSON conversion (src/lib/request/response-handler.ts) -/

/-- Is the `type` field of an event `response.done` or `response.completed`?
A strict `===` comparison, so a non-string type never matches. -/
def isCompletionType : Option Json → Bool
  | some (Json.str s) => s == "response.done" || s == "response.completed"
  | _ => false

/-- One line of `parseSseStream`: `none` when the line is skipped (no
`data: ` marker, unparsable payload, or not a completion event), and
`some r` when the loop returns, `r` being the event's `response` field
(which may itself be absent). -/
def lineEvent (line : String) : Option (Option Json) :=
  if "data: ".data.isPrefixOf line.data then
    match parseJson (String.mk (line.data.drop 6)) with
    | some d => if isCompletionType (jGet d "type") then some (jGet d "response") else none
    | none => none
  else none

/-- `parseSseStream` over the split lines: the first completion event ends
the scan and yields its `response` field. -/
def parseSseLines : List String → Option Json
  | [] => none
  | line :: rest =>
    match lineEvent line with
    | some r => r
    | none => parseSseLines rest

/-- The observable outcome of `convertSseToJson`: status, body text, and
whether the body was emitted as `application/json`. -/
structure ConvResult where
  status : Nat
  body : String
  isJson : Bool
deriving Repr, DecidableEq

/-- `convertSseToJson` for a non-streaming caller: split the accumulated
text on newlines, find the final response via `parseSseStream`, and emit
its JSON — falling back to the raw text with the original status when no
(truthy) final response was found. -/
def convertSseToJson (status : Nat) (sseText : String) : ConvResult :=
  let lines := (splitListOn '\n' sseText.data).map String.mk
  match parseSseLines lines with
  | some r =>
    if jsTruthy r then { status := status, body := jsonStringify r, isJson := true }
    else { status := status, body := sseText, isJson := false }
  | none => { status := status, body := sseText, isJson := false }

/-! ## 404 usage-limit remap and rate-limit classification
(src/lib/request/helpers, fetch helpers) -/

inductive RateLimitReason where
  | RATE_LIMIT_EXCEEDED
  | USAGE_LIMIT_REACHED
  | SERVER_ERROR
  | UNKNOWN
deriving Repr, DecidableEq

/-- The body patterns mapped to `USAGE_LIMIT_REACHED` by
`classifyRateLimitReason`. -/
def usagePatterns : List String :=
  ["usage_limit_reached", "usage_not_included", "usage limit", "exhausted", "quota"]

/-- The body patterns mapped to `RATE_LIMIT_EXCEEDED` by
`classifyRateLimitReason`. -/
def ratePatterns : List String :=
  ["rate_limit", "rate limit", "too many requests", "per minute"]

/-- `classifyRateLimitReason`: status 503/529, then the usage-limit
substring checks, then the rate-limit substring checks, else unknown. -/
def classifyRateLimitReason (status : Nat) (bodyText : String) : RateLimitReason :=
  if status == 503 || status == 529 then RateLimitReason.SERVER_ERROR
  else
    let lower := asciiLower bodyText
    if usagePatterns.any (fun p => strIncludes lower p) then RateLimitReason.USAGE_LIMIT_REACHED
    else if ratePatterns.any (fun p => strIncludes lower p) then RateLimitReason.RATE_LIMIT_EXCEEDED
    else RateLimitReason.UNKNOWN

/-- Skip JavaScript-nullish values, as `??` does. -/
def nonNullish : Option Json → Option Json
  | some Json.null => none
  | o => o

/-- The error code extracted by `mapUsageLimit404`:
`(parsed?.error?.code ?? parsed?.error?.type ?? "").toString()`. -/
def extractErrCode (text : String) : String :=
  match parseJson text with
  | none => ""
  | some parsed =>
    let e := jGet parsed "error"
    let c :=
      match nonNullish (e.bind (fun x => jGet x "code")) with
      | some v => some v
      | none => nonNullish (e.bind (fun x => jGet x "type"))
    match c with
    | some v => jsToString v
    | none => ""

/-- The alternatives of the remap regular expression
`usage_limit_reached|usage_not_included|rate_limit_exceeded|usage limit`. -/
def remapPatterns : List String :=
  ["usage_limit_reached", "usage_not_included", "rate_limit_exceeded", "usage limit"]

/-- `mapUsageLimit404`: on a 404 with a non-empty body, remap to 429 when
the case-insensitive haystack `code ++ " " ++ text` matches the remap
pattern; otherwise report no remap. -/
def mapUsageLimit404 (status : Nat) (text : String) : Option Nat :=
  if !(status == 404) then none
  else if text == "" then none
  else
    let code := extractErrCode text
    let haystack := asciiLower (code ++ " " ++ text)
    if remapPatterns.any (fun p => strIncludes haystack p) then some 429 else none

/-- `handleErrorResponse` at the status level: the remapped status when
`mapUsageLimit404` produced one, otherwise the original status. -/
def handleErrorStatus (status : Nat) (text : String) : Nat :=
  (mapUsageLimit404 status text).getD status

/-! ## Input items (src/lib/types.ts, src/lib/request/helpers/input-utils.ts)

An input item is modelled as a record of the fields the code inspects. A
`content` value is a string, an array of parts, or some other value; an
`output` value is either a string (used verbatim) or any other value,
represented by its `JSON.stringify` image. Items whose `output` is absent
make the source throw at `text.length`; the model is total and uses the
JavaScript rendering "undefined" there, and no theorem depends on that
case. -/

structure ContentPart where
  type : String
  text : Option String
deriving Repr, DecidableEq

inductive ContentVal where
  | str (s : String)
  | parts (l : List ContentPart)
  | other
deriving Repr, DecidableEq

inductive OutVal where
  | str (s : String)
  | json (serialized : String)
deriving Repr, DecidableEq

structure InputItem where
  type : String
  role : String
  content : ContentVal
  callId : Option String
  name : Option String
  output : Option OutVal
  id : Option String
deriving Repr, DecidableEq

def trimChars (l : List Char) : List Char :=
  ((l.dropWhile Char.isWhitespace).reverse.dropWhile Char.isWhitespace).reverse

/-- JavaScript `trim`. -/
def strTrim (s : String) : String :=
  String.mk (trimChars s.data)

/-- JavaScript `trimStart`. -/
def strTrimStart (s : String) : String :=
  String.mk (s.data.dropWhile Char.isWhitespace)

/-- JavaScript `s.startsWith(p)`. -/
def strStartsWith (s p : String) : Bool :=
  p.data.isPrefixOf s.data

/-- `getContentText`: a string content verbatim, an array filtered to its
non-empty `input_text` parts joined by newlines, anything else empty. -/
def getContentText (item : InputItem) : String :=
  match item.content with
  | ContentVal.str s => s
  | ContentVal.parts l =>
    joinWith "\n"
      ((l.filter (fun c =>
          c.type == "input_text" &&
            (match c.text with | some t => !(t == "") | none => false))).map
        (fun c => c.text.getD ""))
  | ContentVal.other => ""

/-- `replaceContentText`. -/
def replaceContentText (item : InputItem) (text : String) : InputItem :=
  match item.content with
  | ContentVal.str _ => { item with content := ContentVal.str text }
  | ContentVal.parts _ =>
    { item with content := ContentVal.parts [{ type := "input_text", text := some text }] }
  | ContentVal.other => { item with content := ContentVal.str text }

def OPENCODE_PROMPT_SIGNATURES : List String :=
  ["you are a coding agent running in the opencode",
   "you are opencode, an agent",
   "you are opencode, an interactive cli agent",
   "you are opencode, an interactive cli tool",
   "you are opencode, the best coding agent on the planet"]

def OPENCODE_CONTEXT_MARKERS : List String :=
  ["here is some useful information about the environment you are running in:",
   "<env>",
   "instructions from:",
   "<instructions>"]

/-- `extractOpenCodeContext`: slice from the earliest environmental marker,
trimming leading whitespace. -/
def extractOpenCodeContext (text : String) : Option String :=
  let lower := (asciiLower text).data
  let earliest := OPENCODE_CONTEXT_MARKERS.foldl
    (fun best m =>
      match idxOfSub m.data lower with
      | some i =>
        match best with
        | some b => if i < b then some i else some b
        | none => some i
      | none => best)
    none
  match earliest with
  | some i => some (strTrimStart (String.mk (text.data.drop i)))
  | none => none

/-- `isOpenCodeSystemPrompt`. -/
def isOpenCodeSystemPrompt (item : InputItem) (cachedPrompt : Option String) : Bool :=
  let isSystemRole := item.role == "developer" || item.role == "system"
  if !isSystemRole then false
  else
    let contentText := getContentText item
    if contentText == "" then false
    else
      let cachedHit :=
        match cachedPrompt with
        | some cp0 =>
          if cp0 == "" then false
          else
            let ct := strTrim contentText
            let cp := strTrim cp0
            (ct == cp || strStartsWith ct cp) ||
              String.mk (ct.data.take 200) == String.mk (cp.data.take 200)
        | none => false
      if cachedHit then true
      else
        let normalized := asciiLower (strTrimStart contentText)
        OPENCODE_PROMPT_SIGNATURES.any (fun sig => strStartsWith normalized sig)

/-- `filterOpenCodeSystemPromptsWithCachedPrompt` on a present input array. -/
def filterOpenCodeSystemPromptsWithCachedPrompt (input : List InputItem)
    (cachedPrompt : Option String) : List InputItem :=
  input.flatMap (fun item =>
    if item.role == "user" then [item]
    else if !isOpenCodeSystemPrompt item cachedPrompt then [item]
    else
      match extractOpenCodeContext (getContentText item) with
      | some preserved => if preserved == "" then [] else [replaceContentText item preserved]
      | none => [])

/-! ## Orphaned tool output repair -/

/-- `getCallId`: a present, non-empty-after-trim call id. -/
def getCallId (item : InputItem) : Option String :=
  match item.callId with
  | none => none
  | some s =>
    let t := strTrim s
    if t.length > 0 then some t else none

def stringifyOutput : Option OutVal → String
  | some (OutVal.str s) => s
  | some (OutVal.json j) => j
  | none => "undefined"

/-- Truncation at 16000 characters with the `...[truncated]` suffix. -/
def truncateOutput (text : String) : String :=
  if text.length > 16000 then String.mk (text.data.take 16000) ++ "\n...[truncated]" else text

/-- `convertOrphanedOutputToMessage`: the assistant message replacing an
orphaned tool output. -/
def convertOrphanedOutputToMessage (item : InputItem) (callId : Option String) : InputItem :=
  let toolName := item.name.getD "tool"
  let text := truncateOutput (stringifyOutput item.output)
  { type := "message"
    role := "assistant"
    content := ContentVal.str
      ("[Previous " ++ toolName ++ " result; call_id=" ++ callId.getD "unknown" ++ "]: " ++ text)
    callId := none, name := none, output := none, id := none }

/-- The call ids collected from items of the given call type; membership in
this list models membership in the corresponding `Set`. -/
def collectCallIds (callType : String) (input : List InputItem) : List String :=
  input.filterMap (fun it => if it.type == callType then getCallId it else none)

/-- `normalizeOrphanedToolOutputs`. The source tests the three output types
in sequence with an early return inside each hit; since an item's `type`
matches at most one branch this is the if-chain below. A
`function_call_output` survives when its id appears among the
`function_call` ids or the `local_shell_call` ids. -/
def normalizeOrphanedToolOutputs (input : List InputItem) : List InputItem :=
  let functionCallIds := collectCallIds "function_call" input
  let localShellCallIds := collectCallIds "local_shell_call" input
  let customToolCallIds := collectCallIds "custom_tool_call" input
  input.map (fun item =>
    if item.type == "function_call_output" then
      match getCallId item with
      | none => convertOrphanedOutputToMessage item none
      | some cid =>
        if !functionCallIds.contains cid && !localShellCallIds.contains cid then
          convertOrphanedOutputToMessage item (some cid)
        else item
    else if item.type == "custom_tool_call_output" then
      match getCallId item with
      | none => convertOrphanedOutputToMessage item none
      | some cid =>
        if !customToolCallIds.contains cid then convertOrphanedOutputToMessage item (some cid)
        else item
    else if item.type == "local_shell_call_output" then
      match getCallId item with
      | none => convertOrphanedOutputToMessage item none
      | some cid =>
        if !localShellCallIds.contains cid then convertOrphanedOutputToMessage item (some cid)
        else item
    else item)

/-- Does some item of the given call type carry this call id? The claim-level
reading of "the set of call ids collected from items of the matching call
type". -/
def referencedBy (callType : String) (cid : String) (input : List InputItem) : Bool :=
  input.any (fun it => it.type == callType && getCallId it == some cid)

/-- The per-item repair rule as the amended claim words it: an output item is
rewritten exactly when its call id is missing or unreferenced — for
`function_call_output`, unreferenced by both `function_call` and
`local_shell_call` items. -/
def orphanRepairedItem (input : List InputItem) (item : InputItem) : InputItem :=
  if item.type == "function_call_output" then
    match getCallId item with
    | none => convertOrphanedOutputToMessage item none
    | some cid =>
      if !referencedBy "function_call" cid input && !referencedBy "local_shell_call" cid input then
        convertOrphanedOutputToMessage item (some cid)
      else item
  else if item.type == "custom_tool_call_output" then
    match getCallId item with
    | none => convertOrphanedOutputToMessage item none
    | some cid =>
      if !referencedBy "custom_tool_call" cid input then
        convertOrphanedOutputToMessage item (some cid)
      else item
  else if item.type == "local_shell_call_output" then
    match getCallId item with
    | none => convertOrphanedOutputToMessage item none
    | some cid =>
      if !referencedBy "local_shell_call" cid input then
        convertOrphanedOutputToMessage item (some cid)
      else item
  else item

/-! ## Request transformer (src/lib/request/request-transformer.ts)

The TypeScript `include` key is modelled by the field `includeList`
(`include` is a reserved word here). `tools` only matters through its
truthiness, modelled by `hasTools`. The two bridge prompt texts live in
src/lib/prompts, which is not part of the provided sources; their content is
irrelevant to every theorem below, so they are opaque constants. The cached
OpenCode prompt fetched by `getOpenCodeCodexPrompt` is a parameter. -/

/-- Configuration options (global, per-model, or `providerOptions.openai`). -/
structure ConfigOptions where
  reasoningEffort : Option String
  reasoningSummary : Option String
  textVerbosity : Option String
  includeList : Option (List String)
deriving Repr, DecidableEq

def emptyConfigOptions : ConfigOptions :=
  { reasoningEffort := none, reasoningSummary := none, textVerbosity := none, includeList := none }

/-- User configuration: global options plus per-model options
(`userConfig.models[m].options`). -/
structure UserConfig where
  global : ConfigOptions
  models : List (String × ConfigOptions)
deriving Repr, DecidableEq

structure ReasoningConfig where
  effort : String
  summary : String
deriving Repr, DecidableEq

structure ReasoningPartial where
  effort : Option String
  summary : Option String
deriving Repr, DecidableEq

structure TextCfg where
  verbosity : Option String
deriving Repr, DecidableEq

structure ProviderOptions where
  openai : Option ConfigOptions
deriving Repr, DecidableEq

structure RequestBody where
  model : Option String
  store : Option Bool
  stream : Option Bool
  instructions : Option String
  input : Option (List InputItem)
  hasTools : Bool
  reasoning : Option ReasoningPartial
  text : Option TextCfg
  includeList : Option (List String)
  providerOptions : Option ProviderOptions
  prompt_cache_key : Option String
  max_output_tokens : Option Nat
  max_completion_tokens : Option Nat
deriving Repr, DecidableEq

/-- Truthiness of an optional string (absent or empty is falsy). -/
def truthyStr : Option String → Bool
  | some s => !(s == "")
  | none => false

/-- Spread merge `\x7b...base, ...over\x7d` of two option records. -/
def mergeConfig (base over : ConfigOptions) : ConfigOptions :=
  { reasoningEffort := over.reasoningEffort.orElse (fun _ => base.reasoningEffort)
    reasoningSummary := over.reasoningSummary.orElse (fun _ => base.reasoningSummary)
    textVerbosity := over.textVerbosity.orElse (fun _ => base.textVerbosity)
    includeList := over.includeList.orElse (fun _ => base.includeList) }

/-- `getModelConfig`. -/
def getModelConfig (modelName : String) (userConfig : UserConfig) : ConfigOptions :=
  mergeConfig userConfig.global ((userConfig.models.lookup modelName).getD emptyConfigOptions)

/-- `getReasoningConfig`: family detection, default effort, and the
sequential coercion rules. -/
def getReasoningConfig (modelName : Option String) (userConfig : ConfigOptions) : ReasoningConfig :=
  let n := asciiLower (modelName.getD "")
  let isGpt52Codex := strIncludes n "gpt-5.2-codex" || strIncludes n "gpt 5.2 codex"
  let isGpt52General := (strIncludes n "gpt-5.2" || strIncludes n "gpt 5.2") && !isGpt52Codex
  let isCodexMax := strIncludes n "codex-max" || strIncludes n "codex max"
  let isCodexMini := strIncludes n "codex-mini" || strIncludes n "codex mini" ||
    strIncludes n "codex_mini" || strIncludes n "codex-mini-latest"
  let isCodex := strIncludes n "codex" && !isCodexMini
  let isLightweight := !isCodexMini && (strIncludes n "nano" || strIncludes n "mini")
  let isGpt51General := (strIncludes n "gpt-5.1" || strIncludes n "gpt 5.1") &&
    !isCodex && !isCodexMax && !isCodexMini
  let supportsXhigh := isGpt52General || isGpt52Codex || isCodexMax
  let supportsNone := isGpt52General || isGpt51General
  let defaultEffort :=
    if isCodexMini then "medium"
    else if supportsXhigh then "high"
    else if isLightweight then "minimal"
    else "medium"
  let effort0 := if truthyStr userConfig.reasoningEffort then userConfig.reasoningEffort.getD ""
    else defaultEffort
  let effort1 :=
    if isCodexMini then
      let e1 := if effort0 == "minimal" || effort0 == "low" || effort0 == "none" then "medium" else effort0
      let e2 := if e1 == "xhigh" then "high" else e1
      if !(e2 == "high") && !(e2 == "medium") then "medium" else e2
    else effort0
  let effort2 := if !supportsXhigh && effort1 == "xhigh" then "high" else effort1
  let effort3 := if !supportsNone && effort2 == "none" then "low" else effort2
  let effort4 := if effort3 == "minimal" then "low" else effort3
  { effort := effort4
    summary := if truthyStr userConfig.reasoningSummary then userConfig.reasoningSummary.getD ""
      else "auto" }

/-- `resolveReasoningConfig`: body-level and provider-level overrides merged
over the model config, then `getReasoningConfig`. -/
def resolveReasoningConfig (modelName : String) (modelConfig : ConfigOptions)
    (body : RequestBody) : ReasoningConfig :=
  let providerOpts := body.providerOptions.bind (fun p => p.openai)
  let existingEffort := (body.reasoning.bind (fun r => r.effort)).orElse
    (fun _ => providerOpts.bind (fun p => p.reasoningEffort))
  let existingSummary := (body.reasoning.bind (fun r => r.summary)).orElse
    (fun _ => providerOpts.bind (fun p => p.reasoningSummary))
  let merged : ConfigOptions :=
    { modelConfig with
      reasoningEffort := if truthyStr existingEffort then existingEffort
        else modelConfig.reasoningEffort
      reasoningSummary := if truthyStr existingSummary then existingSummary
        else modelConfig.reasoningSummary }
  getReasoningConfig (some modelName) merged

/-- `resolveTextVerbosity`. -/
def resolveTextVerbosity (modelConfig : ConfigOptions) (body : RequestBody) : String :=
  let providerOpts := body.providerOptions.bind (fun p => p.openai)
  (((body.text.bind (fun t => t.verbosity)).orElse
      (fun _ => providerOpts.bind (fun p => p.textVerbosity))).orElse
    (fun _ => modelConfig.textVerbosity)).getD "medium"

/-- `resolveInclude`: first present source, falsy entries removed, first
occurrences kept, and `reasoning.encrypted_content` always ensured. -/
def resolveInclude (modelConfig : ConfigOptions) (body : RequestBody) : List String :=
  let providerOpts := body.providerOptions.bind (fun p => p.openai)
  let base := ((body.includeList.orElse
      (fun _ => providerOpts.bind (fun p => p.includeList))).orElse
    (fun _ => modelConfig.includeList)).getD ["reasoning.encrypted_content"]
  let inc := dedupFirst (base.filter (fun s => !(s == "")))
  if inc.contains "reasoning.encrypted_content" then inc
  else inc ++ ["reasoning.encrypted_content"]

/-- `filterInput`: drop `item_reference` items and strip truthy ids. -/
def filterInput (input : List InputItem) : List InputItem :=
  (input.filter (fun item => !(item.type == "item_reference"))).map (fun item =>
    match item.id with
    | some s => if s == "" then item else { item with id := none }
    | none => item)

/-- The Codex-to-OpenCode bridge prompt (src/lib/prompts/bridge.ts, outside
the provided sources; content irrelevant to the theorems below). -/
def CODEX_OPENCODE_BRIDGE : String := "<codex-opencode-bridge>"

/-- The tool remap notice (src/lib/prompts/codex.ts, outside the provided
sources; content irrelevant to the theorems below). -/
def TOOL_REMAP_MESSAGE : String := "<tool-remap-message>"

/-- `addCodexBridgeMessage`. -/
def addCodexBridgeMessage (input : List InputItem) (hasTools : Bool) : List InputItem :=
  if !hasTools then input
  else
    { type := "message", role := "developer"
      content := ContentVal.parts [{ type := "input_text", text := some CODEX_OPENCODE_BRIDGE }]
      callId := none, name := none, output := none, id := none } :: input

/-- `addToolRemapMessage`. -/
def addToolRemapMessage (input : List InputItem) (hasTools : Bool) : List InputItem :=
  if !hasTools then input
  else
    { type := "message", role := "developer"
      content := ContentVal.parts [{ type := "input_text", text := some TOOL_REMAP_MESSAGE }]
      callId := none, name := none, output := none, id := none } :: input

/-- `transformRequestBody`. The source mutates `body` in place and returns
it; the model threads the successive assignments and returns the final
value of that same object. -/
def transformRequestBody (body : RequestBody) (codexInstructions : String)
    (userConfig : UserConfig) (codexMode : Bool) (cachedPrompt : Option String) : RequestBody :=
  let normalizedModel := normalizeModel body.model
  let b1 := { body with
    model := some normalizedModel
    store := some false
    stream := some true
    instructions := some codexInstructions }
  let lookupModel :=
    match body.model with
    | some m => if m == "" then normalizedModel else m
    | none => normalizedModel
  let modelConfig := getModelConfig lookupModel userConfig
  let b2 :=
    match b1.input with
    | none => b1
    | some inp =>
      let i1 := filterInput inp
      let i2 :=
        if codexMode then
          addCodexBridgeMessage (filterOpenCodeSystemPromptsWithCachedPrompt i1 cachedPrompt)
            b1.hasTools
        else addToolRemapMessage i1 b1.hasTools
      { b1 with input := some (normalizeOrphanedToolOutputs i2) }
  let reasoningConfig := resolveReasoningConfig normalizedModel modelConfig b2
  let b3 := { b2 with
    reasoning := some { effort := some reasoningConfig.effort, summary := some reasoningConfig.summary } }
  let b4 := { b3 with text := some { verbosity := some (resolveTextVerbosity modelConfig b3) } }
  let b5 := { b4 with includeList := some (resolveInclude modelConfig b4) }
  { b5 with max_output_tokens := none, max_completion_tokens := none }

/-! ## Account manager and persistence (src/lib/accounts/manager.ts,
src/lib/accounts/storage.ts)

A `ManagedAccount` is a `StoredAccount` plus a runtime `index` that always
equals the account's position in the manager's array (`load` and
`addAccount` maintain this), so the manager state is the list of stored
accounts plus the active index. `decodeJWT` of the access token is an
opaque parse; its decoded identity claims travel with the token value. The
trackers hold no persisted state and enter only through the metric
snapshot. -/

structure StoredAccount where
  email : Option String
  refreshToken : String
  accessToken : Option String
  accessTokenExpires : Option ℚ
  accountId : Option String
  addedAt : ℚ
  lastUsed : ℚ
  enabled : Bool
  rateLimitResetTime : Option ℚ
  rateLimitReason : Option RateLimitReason
  consecutiveFailures : Nat
deriving Repr, DecidableEq

structure ManagerState where
  accounts : List StoredAccount
  activeIndex : Option Nat
deriving Repr, DecidableEq

def initialManagerState : ManagerState :=
  { accounts := [], activeIndex := none }

/-- An OAuth token triple together with the identity claims decoded from
its access token. -/
structure TokenAdd where
  access : String
  refresh : String
  expires : ℚ
  accountId : Option String
  email : Option String
deriving Repr, DecidableEq

/-- The duplicate rule of `addAccount`: same refresh token, or a truthy
decoded account id equal to the stored one. -/
def duplicateMatch (tok : TokenAdd) (a : StoredAccount) : Bool :=
  a.refreshToken == tok.refresh ||
    (match tok.accountId with
     | some id => !(id == "") && a.accountId == some id
     | none => false)

/-- `addAccount`: update the matched account in place, or append a new one;
returns the state and the index handed back to the caller. -/
def addAccount (st : ManagerState) (tok : TokenAdd) (now : ℚ) : ManagerState × Nat :=
  match st.accounts.findIdx? (duplicateMatch tok) with
  | some i =>
    match st.accounts.get? i with
    | some existing =>
      let updated := { existing with
        refreshToken := tok.refresh
        accessToken := some tok.access
        accessTokenExpires := some tok.expires
        accountId := tok.accountId
        email := if truthyStr tok.email then tok.email else existing.email
        enabled := true
        consecutiveFailures := 0
        rateLimitResetTime := none
        rateLimitReason := none }
      ({ st with accounts := st.accounts.set i updated }, i)
    | none => (st, i)
  | none =>
    let newAccount : StoredAccount := {
      email := tok.email
      refreshToken := tok.refresh
      accessToken := some tok.access
      accessTokenExpires := some tok.expires
      accountId := tok.accountId
      addedAt := now
      lastUsed := 0
      enabled := true
      rateLimitResetTime := none
      rateLimitReason := none
      consecutiveFailures := 0 }
    let accounts := st.accounts ++ [newAccount]
    ({ accounts := accounts
       activeIndex := if accounts.length == 1 then some 0 else st.activeIndex },
     st.accounts.length)

/-- `recordSuccess` on the persisted fields. -/
def recordSuccess (st : ManagerState) (i : Nat) (now : ℚ) : ManagerState :=
  match st.accounts.get? i with
  | none => st
  | some a =>
    { st with accounts := st.accounts.set i { a with lastUsed := now, consecutiveFailures := 0 } }

def QUOTA_EXHAUSTED_MS : List ℚ := [60000, 300000, 1800000]

def RATE_LIMIT_MS : ℚ := 30000

def SERVER_ERROR_MS : ℚ := 20000

def UNKNOWN_MS : ℚ := 60000

/-- `calculateBackoff`. -/
def calculateBackoff (reason : RateLimitReason) (failures : Nat) : ℚ :=
  match reason with
  | RateLimitReason.USAGE_LIMIT_REACHED =>
    (QUOTA_EXHAUSTED_MS.get? (min failures (QUOTA_EXHAUSTED_MS.length - 1))).getD UNKNOWN_MS
  | RateLimitReason.RATE_LIMIT_EXCEEDED => RATE_LIMIT_MS
  | RateLimitReason.SERVER_ERROR => SERVER_ERROR_MS
  | RateLimitReason.UNKNOWN => UNKNOWN_MS

/-- `markRateLimited`. -/
def markRateLimited (st : ManagerState) (i : Nat) (reason : RateLimitReason) (now : ℚ) :
    ManagerState :=
  match st.accounts.get? i with
  | none => st
  | some a =>
    let backoffMs := calculateBackoff reason a.consecutiveFailures
    { st with accounts := st.accounts.set i { a with
        rateLimitResetTime := some (now + backoffMs)
        rateLimitReason := some reason
        consecutiveFailures := a.consecutiveFailures + 1 } }

/-- `recordFailure`: bump the failure count and disable at five. -/
def recordFailure (st : ManagerState) (i : Nat) : ManagerState :=
  match st.accounts.get? i with
  | none => st
  | some a =>
    let failures := a.consecutiveFailures + 1
    { st with accounts := st.accounts.set i { a with
        consecutiveFailures := failures
        enabled := if 5 ≤ failures then false else a.enabled } }

inductive ManagerOp where
  | add (tok : TokenAdd) (now : ℚ)
  | success (i : Nat) (now : ℚ)
  | rateLimited (i : Nat) (reason : RateLimitReason) (now : ℚ)
  | failure (i : Nat)
deriving Repr, DecidableEq

def applyOp (st : ManagerState) : ManagerOp → ManagerState
  | ManagerOp.add tok now => (addAccount st tok now).1
  | ManagerOp.success i now => recordSuccess st i now
  | ManagerOp.rateLimited i reason now => markRateLimited st i reason now
  | ManagerOp.failure i => recordFailure st i

def applyOps (st : ManagerState) (ops : List ManagerOp) : ManagerState :=
  ops.foldl applyOp st

/-- Pair every element with its position, starting at `k`. -/
def enumFrom {α : Type} : Nat → List α → List (Nat × α)
  | _, [] => []
  | k, x :: xs => (k, x) :: enumFrom (k + 1) xs

/-- `isRateLimited` as observed by the metric snapshot: a pending reset time
strictly in the future. (The source also clears an expired reset time as a
side effect; that clearing is unobservable to selection.) -/
def isRateLimitedAt (a : StoredAccount) (now : ℚ) : Bool :=
  match a.rateLimitResetTime with
  | none => false
  | some t => decide (now < t)

/-- The metric snapshot built by `selectAccount`; the effective health score
at `now` enters as a function of the account index. -/
def buildMetrics (st : ManagerState) (health : Nat → ℚ) (now : ℚ) : List AccountMetrics :=
  (enumFrom 0 st.accounts).map (fun p =>
    { index := p.1
      lastUsed := p.2.lastUsed
      healthScore := health p.1
      isRateLimited := isRateLimitedAt p.2 now
      enabled := p.2.enabled })

inductive Strategy where
  | sticky
  | roundRobin
  | hybrid
deriving Repr, DecidableEq

/-- The strategy dispatch of `selectAccount`, including the single-account
sticky override. -/
def primarySelection (st : ManagerState) (health tokens : Nat → ℚ) (maxTokens now : ℚ)
    (strategy : Strategy) : Option Nat :=
  let metrics := buildMetrics st health now
  let effectiveStrategy := if st.accounts.length == 1 then Strategy.sticky else strategy
  match effectiveStrategy with
  | Strategy.roundRobin => selectRoundRobin metrics st.activeIndex
  | Strategy.sticky => selectSticky metrics st.activeIndex
  | Strategy.hybrid => selectHybridAccount metrics tokens maxTokens now st.activeIndex 50

/-- A reset time with absence reading as infinity. -/
def resetVal (a : StoredAccount) : WithTop ℚ :=
  match a.rateLimitResetTime with
  | some t => (t : WithTop ℚ)
  | none => ⊤

/-- One step of the `reduce` that finds the soonest-to-reset account: keep
the earlier account unless the current one resets strictly sooner. -/
def pickSooner (prev curr : Nat × StoredAccount) : Nat × StoredAccount :=
  if resetVal curr.2 < resetVal prev.2 then curr else prev

/-- `selectAccount` at the index level: the strategy's pick, or the fallback
to the enabled account with the soonest reset time, or none. -/
def selectAccountIndex (st : ManagerState) (health tokens : Nat → ℚ) (maxTokens now : ℚ)
    (strategy : Strategy) : Option Nat :=
  if st.accounts.length == 0 then none
  else
    match primarySelection st health tokens maxTokens now strategy with
    | some i => some i
    | none =>
      match (enumFrom 0 st.accounts).filter (fun p => p.2.enabled) with
      | [] => none
      | e :: es => some ((es.foldl pickSooner e).1)

/-- On-disk storage value; the JSON serialisation round trip through
`JSON.stringify` / `JSON.parse` of an intact file is the identity on this
value, so it is elided. -/
structure AccountStorage where
  version : Nat
  accounts : List StoredAccount
  activeIndex : Nat
deriving Repr, DecidableEq

/-- `saveToDisk`: the stored projection of every account (the runtime index
is dropped) plus `activeIndex ?? 0`. -/
def saveToDisk (st : ManagerState) : AccountStorage :=
  { version := 1, accounts := st.accounts, activeIndex := st.activeIndex.getD 0 }

/-- `Map.set` on an existing key keeps the entry position; on a fresh key it
appends. -/
def replaceAssoc (m : List (String × StoredAccount)) (k : String) (v : StoredAccount) :
    List (String × StoredAccount) :=
  m.map (fun p => if p.1 == k then (k, v) else p)

/-- One iteration of `deduplicateAccounts`: keep the stored entry unless the
new one was used strictly more recently. -/
def dedupStep (m : List (String × StoredAccount)) (acc : StoredAccount) :
    List (String × StoredAccount) :=
  match m.lookup acc.refreshToken with
  | none => m ++ [(acc.refreshToken, acc)]
  | some existing =>
    if existing.lastUsed < acc.lastUsed then replaceAssoc m acc.refreshToken acc else m

/-- `deduplicateAccounts`: deduplicate by refresh token keeping the newest,
in `Map` insertion order. -/
def deduplicateAccounts (accounts : List StoredAccount) : List StoredAccount :=
  (accounts.foldl dedupStep []).map (fun p => p.2)

/-- `loadAccounts` on an intact storage value: discard empty refresh tokens,
deduplicate, clamp the active index into range. -/
def loadAccounts (data : AccountStorage) : AccountStorage :=
  let validAccounts := data.accounts.filter (fun a => !(a.refreshToken == ""))
  let deduped := deduplicateAccounts validAccounts
  let activeIndex :=
    if deduped.length > 0 then min (max data.activeIndex 0) (deduped.length - 1) else 0
  { version := 1, accounts := deduped, activeIndex := activeIndex }

/-- The manager's storage invariant: refresh tokens are non-empty and
pairwise distinct, and a non-empty pool has an in-range active index. -/
def ManagerInv (st : ManagerState) : Prop :=
  (∀ a ∈ st.accounts, a.refreshToken ≠ "") ∧
  (st.accounts.map (fun a => a.refreshToken)).Nodup ∧
  (st.accounts ≠ [] →
    match st.activeIndex with
    | some k => k < st.accounts.length
    | none => False)

/-- A safe `add_account`: the token's refresh value is non-empty, and when
the duplicate rule matches some account, no other account already holds
that refresh token (otherwise the in-place update would create a
duplicate). -/
def AddSafe (st : ManagerState) (tok : TokenAdd) : Prop :=
  tok.refresh ≠ "" ∧
  (match st.accounts.findIdx? (duplicateMatch tok) with
   | some i => ∀ p ∈ enumFrom 0 st.accounts, p.1 ≠ i → p.2.refreshToken ≠ tok.refresh
   | none => True)

def OpSafe (st : ManagerState) : ManagerOp → Prop
  | ManagerOp.add tok _ => AddSafe st tok
  | _ => True

/-- Every operation of the trace is safe in the state where it runs. -/
def SafeTrace : ManagerState → List ManagerOp → Prop
  | _, [] => True
  | st, op :: rest => OpSafe st op ∧ SafeTrace (applyOp st op) rest

/-- The scored candidates other than the active account. -/
def nonActiveScored (accounts : List AccountMetrics) (tokens : Nat → ℚ) (maxTokens now : ℚ)
    (c : Nat) (minHealth : ℚ) : List ScoredAccount :=
  (hybridScored accounts tokens maxTokens now (some c) minHealth).filter (fun e => !e.isCurrent)

/-- The base score of the active account's scored entry (0 when the active
account is not a candidate). -/
def activeBaseScore (accounts : List AccountMetrics) (tokens : Nat → ℚ) (maxTokens now : ℚ)
    (c : Nat) (minHealth : ℚ) : ℚ :=
  match (hybridScored accounts tokens maxTokens now (some c) minHealth).find?
      (fun e => e.isCurrent) with
  | some e => e.baseScore
  | none => 0

/-! ## Concrete fixtures used by the witnesses -/

def wAcc0 : StoredAccount :=
  { email := none, refreshToken := "r0", accessToken := none, accessTokenExpires := none,
    accountId := none, addedAt := 1, lastUsed := 2, enabled := true,
    rateLimitResetTime := none, rateLimitReason := none, consecutiveFailures := 0 }

def wAcc1 : StoredAccount :=
  { email := none, refreshToken := "r1", accessToken := none, accessTokenExpires := none,
    accountId := some "B", addedAt := 3, lastUsed := 4, enabled := false,
    rateLimitResetTime := none, rateLimitReason := none, consecutiveFailures := 2 }

def wTok : TokenAdd :=
  { access := "t", refresh := "r2", expires := 9, accountId := some "B", email := none }

def wState : ManagerState :=
  { accounts := [wAcc0, wAcc1], activeIndex := some 0 }

def wAccRL0 : StoredAccount :=
  { email := none, refreshToken := "r0", accessToken := none, accessTokenExpires := none,
    accountId := none, addedAt := 1, lastUsed := 2, enabled := true,
    rateLimitResetTime := some 500, rateLimitReason := none, consecutiveFailures := 0 }

def wAccRL1 : StoredAccount :=
  { email := none, refreshToken := "r1", accessToken := none, accessTokenExpires := none,
    accountId := none, addedAt := 3, lastUsed := 4, enabled := true,
    rateLimitResetTime := some 300, rateLimitReason := none, consecutiveFailures := 0 }

/-- A pool with every account rate-limited, forcing the fallback path. -/
def wStateRL : ManagerState :=
  { accounts := [wAccRL0, wAccRL1], activeIndex := some 0 }

def wMetric0 : AccountMetrics :=
  { index := 0, lastUsed := 0, healthScore := 70, isRateLimited := false, enabled := true }

def wM0 : AccountMetrics :=
  { index := 0, lastUsed := 1000000, healthScore := 50, isRateLimited := false, enabled := true }

def wM1 : AccountMetrics :=
  { index := 1, lastUsed := 1000000, healthScore := 100, isRateLimited := false, enabled := true }

def wTokensFn : Nat → ℚ := fun _ => 50

def wTokEmpty : TokenAdd :=
  { access := "t", refresh := "", expires := 0, accountId := none, email := none }

def wOps : List ManagerOp :=
  [ManagerOp.add wTok 5, ManagerOp.success 0 7]

/-! # Theorems -/

/-! ## List helper lemmas -/

theorem mem_insertScoredDesc (x z : ScoredAccount) (l : List ScoredAccount) :
    z ∈ insertScoredDesc x l ↔ z = x ∨ z ∈ l := by
  induction l with
  | nil => simp [insertScoredDesc]
  | cons y ys ih =>
    rw [insertScoredDesc]
    by_cases h : x.score ≤ y.score
    · rw [if_pos h]
      simp only [List.mem_cons, ih]
      tauto
    · rw [if_neg h]
      exact List.mem_cons

theorem sortScoredDesc_foldl_mem (l : List ScoredAccount) :
    ∀ (acc : List ScoredAccount) (z : ScoredAccount),
      z ∈ l.foldl (fun a x => insertScoredDesc x a) acc ↔ z ∈ acc ∨ z ∈ l := by
  induction l with
  | nil => intro acc z; simp
  | cons y ys ih =>
    intro acc z
    simp only [List.foldl_cons, ih, mem_insertScoredDesc, List.mem_cons]
    tauto

theorem mem_sortScoredDesc (z : ScoredAccount) (l : List ScoredAccount) :
    z ∈ sortScoredDesc l ↔ z ∈ l := by
  simpa [sortScoredDesc] using sortScoredDesc_foldl_mem l [] z

theorem pairwise_insertScoredDesc (x : ScoredAccount) (l : List ScoredAccount)
    (h : l.Pairwise (fun a b => b.score ≤ a.score)) :
    (insertScoredDesc x l).Pairwise (fun a b => b.score ≤ a.score) := by
  induction l with
  | nil => simp [insertScoredDesc]
  | cons y ys ih =>
    rcases List.pairwise_cons.mp h with ⟨hy, hys⟩
    by_cases hxy : x.score ≤ y.score
    · rw [insertScoredDesc, if_pos hxy]
      refine List.pairwise_cons.mpr ⟨?_, ih hys⟩
      intro z hz
      rcases (mem_insertScoredDesc x z ys).mp hz with rfl | hzys
      · exact hxy
      · exact hy z hzys
    · rw [insertScoredDesc, if_neg hxy]
      refine List.pairwise_cons.mpr ⟨?_, h⟩
      intro z hz
      rcases List.mem_cons.mp hz with rfl | hzys
      · exact le_of_lt (lt_of_not_le hxy)
      · exact le_trans (hy z hzys) (le_of_lt (lt_of_not_le hxy))

theorem sortScoredDesc_pairwise (l : List ScoredAccount) :
    (sortScoredDesc l).Pairwise (fun a b => b.score ≤ a.score) := by
  have key : ∀ (l acc : List ScoredAccount),
      acc.Pairwise (fun a b => b.score ≤ a.score) →
      (l.foldl (fun a x => insertScoredDesc x a) acc).Pairwise (fun a b => b.score ≤ a.score) := by
    intro l
    induction l with
    | nil => intro acc h; simpa using h
    | cons y ys ih =>
      intro acc h
      exact ih _ (pairwise_insertScoredDesc y acc h)
  exact key l [] (by simp)

theorem head_score_max {l : List ScoredAccount} {b : ScoredAccount}
    (hp : l.Pairwise (fun a b => b.score ≤ a.score)) (hh : l.head? = some b) :
    ∀ z ∈ l, z.score ≤ b.score := by
  cases l with
  | nil => cases hh
  | cons a t =>
    cases hh
    intro z hz
    rcases List.mem_cons.mp hz with rfl | hzt
    · exact le_refl _
    · exact (List.pairwise_cons.mp hp).1 z hzt

theorem foldl_max_base_ge_init (init : ℚ) (es : List ScoredAccount) :
    init ≤ es.foldl (fun m x => max m x.baseScore) init := by
  induction es generalizing init with
  | nil => simp
  | cons y ys ih => exact le_trans (le_max_left _ _) (ih _)

theorem foldl_max_base_ge_mem {x : ScoredAccount} {es : List ScoredAccount} (init : ℚ)
    (hx : x ∈ es) : x.baseScore ≤ es.foldl (fun m x => max m x.baseScore) init := by
  induction es generalizing init with
  | nil => cases hx
  | cons y ys ih =>
    rcases List.mem_cons.mp hx with rfl | hxys
    · exact le_trans (le_max_right _ _) (foldl_max_base_ge_init _ _)
    · exact ih _ hxys

theorem le_maxBaseScore {x : ScoredAccount} {l : List ScoredAccount} (hx : x ∈ l) :
    x.baseScore ≤ maxBaseScore l := by
  cases l with
  | nil => cases hx
  | cons e es =>
    rcases List.mem_cons.mp hx with rfl | hxes
    · exact foldl_max_base_ge_init _ _
    · exact foldl_max_base_ge_mem _ hxes

/-! ## C7: model normalisation idempotence -/

theorem lookup_mem_values (l : List (String × String)) (k v : String)
    (h : l.lookup k = some v) : v ∈ l.map (fun p => p.2) := by
  induction l with
  | nil => simp [List.lookup] at h
  | cons p ps ih =>
    cases p with
    | mk k' b =>
      rw [List.lookup] at h
      by_cases hk : (k == k') = true
      · rw [hk] at h
        injection h with h
        rw [List.map_cons]
        exact h ▸ List.mem_cons_self _ _
      · rw [Bool.not_eq_true] at hk
        rw [hk] at h
        rw [List.map_cons]
        exact List.mem_cons_of_mem _ (ih h)

theorem getNormalizedModel_mem (m v : String) (h : getNormalizedModel m = some v) :
    v ∈ MODEL_MAP.map (fun p => p.2) := by
  rw [getNormalizedModel] at h
  cases hl : MODEL_MAP.lookup m with
  | some w =>
    rw [hl] at h
    cases h
    exact lookup_mem_values _ _ _ hl
  | none =>
    rw [hl] at h
    cases hf : MODEL_MAP.find? (fun kv => asciiLower kv.1 == asciiLower m) with
    | some kv =>
      rw [hf] at h
      cases h
      exact List.mem_map_of_mem _ (List.mem_of_find?_eq_some hf)
    | none => rw [hf] at h; cases h

theorem substringLadder_mem (n : String) : substringLadder n ∈ canonicalModels := by
  rw [substringLadder]
  split_ifs <;> decide

theorem normalizeModel_mem_canonical (m : Option String) :
    normalizeModel m ∈ canonicalModels := by
  cases m with
  | none => decide
  | some s =>
    show normalizeModelStr s ∈ canonicalModels
    rw [normalizeModelStr]
    by_cases he : (s == "") = true
    · rw [if_pos he]; decide
    · rw [if_neg he]
      cases hg : getNormalizedModel (stripProvider s) with
      | some mapped =>
        have hsub : ∀ v ∈ MODEL_MAP.map (fun p => p.2), v ∈ canonicalModels := by decide
        exact hsub _ (getNormalizedModel_mem _ _ hg)
      | none =>
        exact substringLadder_mem _

/-- Claim C7 (corrected): model normalisation is idempotent on every input
whose first normalisation is not the legacy name `codex-mini-latest`; that
name is produced by the substring ladder but mapped onward to
`gpt-5.1-codex-mini` by the exact-match table. -/
theorem normalizeModel_idem (m : Option String)
    (h : normalizeModel m ≠ "codex-mini-latest") :
    normalizeModel (some (normalizeModel m)) = normalizeModel m := by
  have hm := normalizeModel_mem_canonical m
  simp only [canonicalModels, List.mem_cons, List.not_mem_nil, or_false] at hm
  rcases hm with h1 | h1 | h1 | h1 | h1 | h1 | h1 <;> rw [h1]
  · decide
  · decide
  · decide
  · decide
  · decide
  · decide
  · exact absurd h1 h

/-- Witness for C7: a model id outside every special family normalises to
`gpt-5.1` and is a fixed point. -/
theorem normalizeModel_idem_witness :
    normalizeModel (some "gpt-4o") ≠ "codex-mini-latest" ∧
      normalizeModel (some (normalizeModel (some "gpt-4o"))) = normalizeModel (some "gpt-4o") :=
  ⟨by decide, normalizeModel_idem (some "gpt-4o") (by decide)⟩

/-- Counterexample to C7 as stated: `codex-mini-latest2` fuzzy-matches the
legacy `codex-mini-latest` family, whose name the exact table then maps to
`gpt-5.1-codex-mini`, so the second normalisation differs from the first. -/
theorem normalizeModel_not_idempotent :
    normalizeModel (some (normalizeModel (some "codex-mini-latest2"))) ≠
      normalizeModel (some "codex-mini-latest2") := by decide

/-! ## C9: URL rewrite -/

theorem replaceFirst_at_head (pat repl l : List Char) (hne : pat ≠ [])
    (hp : pat.isPrefixOf l = true) :
    replaceFirstList pat repl l = repl ++ l.drop pat.length := by
  cases l with
  | nil =>
    cases pat with
    | nil => exact absurd rfl hne
    | cons c cs => simp [List.isPrefixOf] at hp
  | cons c rest => rw [replaceFirstList, if_pos hp]

theorem replaceFirst_middle (pat repl : List Char) (hne : pat ≠ []) :
    ∀ p q, (∀ i, i < p.length → ¬pat.isPrefixOf ((p ++ pat ++ q).drop i) = true) →
      replaceFirstList pat repl (p ++ pat ++ q) = p ++ repl ++ q := by
  intro p
  induction p with
  | nil =>
    intro q _
    simp only [List.nil_append]
    rw [replaceFirst_at_head pat repl _ hne
      (List.isPrefixOf_iff_prefix.mpr (List.prefix_append _ _))]
    rw [List.drop_left]
  | cons a p' ih =>
    intro q h
    have hlist : (a :: p') ++ pat ++ q = a :: (p' ++ pat ++ q) := by simp
    have h0 : ¬pat.isPrefixOf (a :: (p' ++ pat ++ q)) = true := by
      have := h 0 (by simp)
      simpa [hlist] using this
    rw [hlist, replaceFirstList, if_neg h0]
    rw [ih q (fun i hi => by
      have hh := h (i + 1) (by simpa using Nat.succ_lt_succ hi)
      simpa [hlist, List.drop_succ_cons] using hh)]
    simp

theorem replaceFirst_no_occur (pat repl : List Char) :
    ∀ l, listHasInfix pat l = false → replaceFirstList pat repl l = l := by
  intro l
  induction l with
  | nil => intro _; rfl
  | cons c rest ih =>
    intro h
    rw [listHasInfix] at h
    have h1 : pat.isPrefixOf (c :: rest) = false := by
      cases hx : pat.isPrefixOf (c :: rest) with
      | false => rfl
      | true => rw [hx] at h; simp at h
    have h2 : listHasInfix pat rest = false := by
      cases hx : listHasInfix pat rest with
      | false => rfl
      | true => rw [hx] at h; simp at h
    rw [replaceFirstList, if_neg (by simp [h1]), ih h2]

/-- Claim C9 (corrected): the rewrite replaces the first occurrence of the
substring `/responses` with `/codex/responses` (a URL without the substring
is left unchanged); it does not single out the trailing path segment. -/
theorem rewriteUrlForCodex_first_occurrence (p q l : List Char)
    (h1 : ∀ i, i < p.length →
      ¬RESPONSES_PATH.data.isPrefixOf ((p ++ RESPONSES_PATH.data ++ q).drop i) = true)
    (h2 : listHasInfix RESPONSES_PATH.data l = false) :
    rewriteUrlForCodex (String.mk (p ++ RESPONSES_PATH.data ++ q)) =
      String.mk (p ++ CODEX_RESPONSES_PATH.data ++ q) ∧
    rewriteUrlForCodex (String.mk l) = String.mk l := by
  constructor
  · rw [rewriteUrlForCodex]
    have hd : (String.mk (p ++ RESPONSES_PATH.data ++ q)).data =
        p ++ RESPONSES_PATH.data ++ q := rfl
    rw [hd, replaceFirst_middle RESPONSES_PATH.data CODEX_RESPONSES_PATH.data (by decide) p q h1]
  · rw [rewriteUrlForCodex]
    have hd : (String.mk l).data = l := rfl
    rw [hd, replaceFirst_no_occur RESPONSES_PATH.data CODEX_RESPONSES_PATH.data l h2]

/-- Witness for C9: the trailing-segment case is rewritten and a URL not
containing the substring is untouched. -/
theorem rewriteUrlForCodex_witness :
    (∀ i, i < ("https://h".data).length →
      ¬RESPONSES_PATH.data.isPrefixOf
        ((("https://h".data) ++ RESPONSES_PATH.data ++ ([] : List Char)).drop i) = true) ∧
    listHasInfix RESPONSES_PATH.data ("https://x/api".data) = false ∧
    rewriteUrlForCodex (String.mk (("https://h".data) ++ RESPONSES_PATH.data ++ [])) =
      String.mk (("https://h".data) ++ CODEX_RESPONSES_PATH.data ++ []) ∧
    rewriteUrlForCodex (String.mk ("https://x/api".data)) = String.mk ("https://x/api".data) :=
  ⟨by decide, by decide,
    (rewriteUrlForCodex_first_occurrence "https://h".data [] "https://x/api".data
      (by decide) (by decide)).1,
    (rewriteUrlForCodex_first_occurrence "https://h".data [] "https://x/api".data
      (by decide) (by decide)).2⟩

/-- Counterexample to C9 as stated: in `https://h/responses/extra` the only
occurrence of `/responses` is not the trailing path segment, so the claim
demands the URL stay unchanged, but the code rewrites it. -/
theorem rewriteUrlForCodex_cx :
    rewriteUrlForCodex "https://h/responses/extra" ≠ "https://h/responses/extra" := by decide

/-! ## C2: 404 usage-limit remap -/

theorem handleErrorStatus_404_eq (text : String) :
    handleErrorStatus 404 text =
      (if text == "" then 404
       else if remapPatterns.any
           (fun pt => strIncludes (asciiLower (extractErrCode text ++ " " ++ text)) pt)
         then 429 else 404) := by
  rw [handleErrorStatus, mapUsageLimit404]
  rw [if_neg (by decide)]
  by_cases ht : (text == "") = true
  · rw [if_pos ht, if_pos ht]; rfl
  · rw [if_neg ht, if_neg ht]
    by_cases hp : remapPatterns.any
        (fun pt => strIncludes (asciiLower (extractErrCode text ++ " " ++ text)) pt) = true
    · rw [if_pos hp, if_pos hp]; rfl
    · rw [if_neg hp, if_neg hp]; rfl

/-- Claim C2 (corrected): a 404 is remapped to 429 exactly when the body is
non-empty and the haystack, the extracted error code followed by the body,
contains one of `usage_limit_reached`, `usage_not_included`,
`rate_limit_exceeded`, `usage limit` case-insensitively; every other 404 is
surfaced with status 404 unchanged. (This differs from the classifier's
`USAGE_LIMIT_REACHED` patterns: `rate_limit_exceeded` is in, `exhausted`
and `quota` are out.) -/
theorem mapUsageLimit404_characterization (text : String) :
    (handleErrorStatus 404 text = 429 ↔
      text ≠ "" ∧ remapPatterns.any
        (fun pt => strIncludes (asciiLower (extractErrCode text ++ " " ++ text)) pt) = true) ∧
    (handleErrorStatus 404 text = 429 ∨ handleErrorStatus 404 text = 404) := by
  rw [handleErrorStatus_404_eq]
  split_ifs with ht hp
  · have hte : text = "" := by simpa using ht
    refine ⟨?_, Or.inr rfl⟩
    simp [hte]
  · have hne : text ≠ "" := by simpa using ht
    refine ⟨?_, Or.inl rfl⟩
    simp [hne, hp]
  · refine ⟨?_, Or.inr rfl⟩
    simp [hp]

/-- Counterexample to C2 as stated: the body `quota` matches the
classifier's usage-limit patterns but the 404 is not remapped, while the
body `rate_limit_exceeded` does not match them and yet is remapped. -/
theorem mapUsageLimit404_cx :
    classifyRateLimitReason 404 "quota" = RateLimitReason.USAGE_LIMIT_REACHED ∧
    mapUsageLimit404 404 "quota" = none ∧
    handleErrorStatus 404 "quota" = 404 ∧
    classifyRateLimitReason 404 "rate_limit_exceeded" = RateLimitReason.RATE_LIMIT_EXCEEDED ∧
    handleErrorStatus 404 "rate_limit_exceeded" = 429 := by decide

/-! ## C8: SSE to JSON conversion -/

theorem parseSseLines_append_none (pre rest : List String)
    (hpre : ∀ l ∈ pre, lineEvent l = none) :
    parseSseLines (pre ++ rest) = parseSseLines rest := by
  induction pre with
  | nil => rfl
  | cons x xs ih =>
    rw [List.cons_append, parseSseLines, hpre x (List.mem_cons_self _ _)]
    exact ih (fun l hl => hpre l (List.mem_cons_of_mem _ hl))

/-- Claim C8 (corrected): when every line before the last carries no
completion event and the last line's `data:` payload is a completion event
with truthy response `R`, the converter emits `R` as JSON with the original
status; when no line carries a completion event, it emits the raw
concatenated text with the original status. In general the converter uses
the first completion event of the stream, not the last. -/
theorem convertSseToJson_characterization (status : Nat) (sseText rawText : String)
    (pre : List String) (lastLine : String) (r : Json)
    (hsplit : (splitListOn '\n' sseText.data).map String.mk = pre ++ [lastLine])
    (hpre : ∀ l ∈ pre, lineEvent l = none)
    (hlast : lineEvent lastLine = some (some r))
    (htruthy : jsTruthy r = true)
    (hraw : ∀ l ∈ (splitListOn '\n' rawText.data).map String.mk, lineEvent l = none) :
    convertSseToJson status sseText = { status := status, body := jsonStringify r, isJson := true } ∧
    convertSseToJson status rawText = { status := status, body := rawText, isJson := false } := by
  constructor
  · have hp : parseSseLines ((splitListOn '\n' sseText.data).map String.mk) = some r := by
      rw [hsplit, parseSseLines_append_none pre _ hpre, parseSseLines, hlast]
    rw [convertSseToJson, hp]
    simp [htruthy]
  · have hp : parseSseLines ((splitListOn '\n' rawText.data).map String.mk) = none := by
      have : parseSseLines ((splitListOn '\n' rawText.data).map String.mk) =
          parseSseLines [] := by
        have := parseSseLines_append_none ((splitListOn '\n' rawText.data).map String.mk) [] hraw
        simpa using this
      simpa [parseSseLines] using this
    rw [convertSseToJson, hp]

/-- Witness for C8: a one-line stream whose completion event carries the
object `\x7b"id":"r"\x7d`, and a plain-text stream with no events. -/
theorem convertSseToJson_witness :
    ((splitListOn '\n' ("data: \x7b\"type\":\"response.completed\",\"response\":\x7b\"id\":\"r\"\x7d\x7d" : String).data).map String.mk =
      [] ++ ["data: \x7b\"type\":\"response.completed\",\"response\":\x7b\"id\":\"r\"\x7d\x7d"]) ∧
    lineEvent "data: \x7b\"type\":\"response.completed\",\"response\":\x7b\"id\":\"r\"\x7d\x7d" =
      some (some (Json.obj [("id", Json.str "r")])) ∧
    convertSseToJson 200 "data: \x7b\"type\":\"response.completed\",\"response\":\x7b\"id\":\"r\"\x7d\x7d" =
      { status := 200, body := jsonStringify (Json.obj [("id", Json.str "r")]), isJson := true } ∧
    convertSseToJson 502 "upstream text" = { status := 502, body := "upstream text", isJson := false } := by
  have hraw : ∀ l ∈ (splitListOn '\n' ("upstream text" : String).data).map String.mk,
      lineEvent l = none := by
    intro l hl
    rw [show (splitListOn '\n' ("upstream text" : String).data).map String.mk =
      ["upstream text"] from rfl] at hl
    rw [List.mem_singleton] at hl
    subst hl
    rfl
  refine ⟨rfl, rfl, ?_, ?_⟩
  · exact (convertSseToJson_characterization 200
      "data: \x7b\"type\":\"response.completed\",\"response\":\x7b\"id\":\"r\"\x7d\x7d"
      "upstream text" [] _ (Json.obj [("id", Json.str "r")]) rfl
      (by intro l hl; cases hl) rfl rfl hraw).1
  · have h2 := (convertSseToJson_characterization 502
      "data: \x7b\"type\":\"response.completed\",\"response\":\x7b\"id\":\"r\"\x7d\x7d"
      "upstream text" [] _ (Json.obj [("id", Json.str "r")]) rfl
      (by intro l hl; cases hl) rfl rfl hraw).2
    exact h2

/-- Counterexample to C8 as stated: a stream whose last event line is a
completion with response `2` still yields the response of the first
completion line, `1`. -/
theorem convertSseToJson_cx :
    lineEvent "data: \x7b\"type\":\"response.completed\",\"response\":2\x7d" =
      some (some (Json.num 2)) ∧
    convertSseToJson 200
        ("data: \x7b\"type\":\"response.completed\",\"response\":1\x7d\ndata: \x7b\"type\":\"response.completed\",\"response\":2\x7d") ≠
      { status := 200, body := jsonStringify (Json.num 2), isJson := true } := by
  exact ⟨rfl, by decide⟩

/-! ## C3: orphaned tool output repair -/

theorem collected_iff (ct cid : String) (input : List InputItem) :
    (collectCallIds ct input).contains cid = true ↔ referencedBy ct cid input = true := by
  rw [referencedBy, List.any_eq_true]
  constructor
  · intro h
    have hmem : cid ∈ collectCallIds ct input := List.elem_iff.mp h
    rw [collectCallIds] at hmem
    rcases List.mem_filterMap.mp hmem with ⟨it, hit, hf⟩
    by_cases hty : (it.type == ct) = true
    · rw [if_pos hty] at hf
      exact ⟨it, hit, by simp [hty, hf]⟩
    · rw [if_neg hty] at hf; cases hf
  · rintro ⟨it, hit, hp⟩
    rw [Bool.and_eq_true] at hp
    obtain ⟨hty, hcid⟩ := hp
    have hcid' : getCallId it = some cid := by simpa using hcid
    apply List.elem_eq_true_of_mem
    rw [collectCallIds]
    exact List.mem_filterMap.mpr ⟨it, hit, by rw [if_pos hty, hcid']⟩

/-- Claim C3 (corrected): orphan repair is the pointwise rule rewriting an
output item into the assistant message exactly when its call id is missing
or unreferenced — where a `function_call_output` counts as referenced when
its id appears on a `function_call` item or on a `local_shell_call` item,
while the other two output types use only their matching call type. -/
theorem normalizeOrphanedToolOutputs_characterization (input : List InputItem) :
    normalizeOrphanedToolOutputs input = input.map (orphanRepairedItem input) := by
  have e1 : ∀ c, (collectCallIds "function_call" input).contains c =
      referencedBy "function_call" c input :=
    fun c => Bool.eq_iff_iff.mpr (collected_iff _ c input)
  have e2 : ∀ c, (collectCallIds "local_shell_call" input).contains c =
      referencedBy "local_shell_call" c input :=
    fun c => Bool.eq_iff_iff.mpr (collected_iff _ c input)
  have e3 : ∀ c, (collectCallIds "custom_tool_call" input).contains c =
      referencedBy "custom_tool_call" c input :=
    fun c => Bool.eq_iff_iff.mpr (collected_iff _ c input)
  simp only [normalizeOrphanedToolOutputs]
  apply List.map_congr_left
  intro item _
  rw [orphanRepairedItem]
  simp only [e1, e2, e3]

/-- Counterexample to C3 as stated: a `function_call_output` whose call id
appears only on a `local_shell_call` item is absent from the
`function_call` id set, so the claim demands its rewrite into an assistant
message, but the code leaves it unchanged. -/
theorem normalizeOrphanedToolOutputs_cx :
    normalizeOrphanedToolOutputs
        [{ type := "local_shell_call", role := "", content := ContentVal.other,
           callId := some "X", name := none, output := none, id := none },
         { type := "function_call_output", role := "", content := ContentVal.other,
           callId := some "X", name := none, output := some (OutVal.str "hi"), id := none }] =
      [{ type := "local_shell_call", role := "", content := ContentVal.other,
         callId := some "X", name := none, output := none, id := none },
       { type := "function_call_output", role := "", content := ContentVal.other,
         callId := some "X", name := none, output := some (OutVal.str "hi"), id := none }] ∧
    convertOrphanedOutputToMessage
        { type := "function_call_output", role := "", content := ContentVal.other,
          callId := some "X", name := none, output := some (OutVal.str "hi"), id := none }
        (some "X") ≠
      { type := "function_call_output", role := "", content := ContentVal.other,
        callId := some "X", name := none, output := some (OutVal.str "hi"), id := none } := by
  decide

/-! ## C4: request transformer frame behaviour -/

/-- Claim C4 (corrected): the transformer returns the same body object it
was handed, mutated in place — modelled by the returned value. After the
call, `store` is false, `stream` is true, `instructions` and `model` are
overwritten, the token caps are cleared, while fields the transformer never
writes (such as `prompt_cache_key` and `tools`) keep their values. -/
theorem transformRequestBody_post (body : RequestBody) (instr : String) (cfg : UserConfig)
    (mode : Bool) (cp : Option String) :
    (transformRequestBody body instr cfg mode cp).store = some false ∧
    (transformRequestBody body instr cfg mode cp).stream = some true ∧
    (transformRequestBody body instr cfg mode cp).instructions = some instr ∧
    (transformRequestBody body instr cfg mode cp).model = some (normalizeModel body.model) ∧
    (transformRequestBody body instr cfg mode cp).prompt_cache_key = body.prompt_cache_key ∧
    (transformRequestBody body instr cfg mode cp).hasTools = body.hasTools ∧
    (transformRequestBody body instr cfg mode cp).max_output_tokens = none ∧
    (transformRequestBody body instr cfg mode cp).max_completion_tokens = none := by
  cases hin : body.input <;> simp [transformRequestBody, hin]

/-- Counterexample to C4 as stated: the value of the body object after the
call differs from its value before the call — `store`, `stream` and `model`
are overwritten in place, so the fields do not compare equal. -/
theorem transformRequestBody_cx :
    transformRequestBody
        { model := some "gpt-5", store := some true, stream := some false, instructions := none,
          input := none, hasTools := false, reasoning := none, text := none, includeList := none,
          providerOptions := none, prompt_cache_key := none, max_output_tokens := none,
          max_completion_tokens := none }
        "SYS" { global := emptyConfigOptions, models := [] } true none ≠
      { model := some "gpt-5", store := some true, stream := some false, instructions := none,
        input := none, hasTools := false, reasoning := none, text := none, includeList := none,
        providerOptions := none, prompt_cache_key := none, max_output_tokens := none,
        max_completion_tokens := none } := by
  decide

/-! ## C10: duplicate update frame property -/

/-- Claim C10 (confirmed): when `addAccount` matches an existing account by
the duplicate rule, it updates that account in place — its `addedAt`,
`lastUsed` and position survive, every other account is untouched, the
count and active index are unchanged, and the matched index is returned. -/
theorem addAccount_duplicate_frame (st : ManagerState) (tok : TokenAdd) (now : ℚ) (i : Nat)
    (hfind : st.accounts.findIdx? (duplicateMatch tok) = some i) :
    (addAccount st tok now).2 = i ∧
    (addAccount st tok now).1.accounts.length = st.accounts.length ∧
    (addAccount st tok now).1.activeIndex = st.activeIndex ∧
    (∀ a, st.accounts.get? i = some a →
      ((addAccount st tok now).1.accounts.get? i).map (fun b => (b.addedAt, b.lastUsed)) =
        some (a.addedAt, a.lastUsed)) ∧
    (∀ j, j ≠ i → (addAccount st tok now).1.accounts.get? j = st.accounts.get? j) := by
  have hlt : i < st.accounts.length := (List.findIdx?_eq_some_iff_findIdx_eq.mp hfind).1
  obtain ⟨a, ha⟩ : ∃ a, st.accounts.get? i = some a := by
    cases hga : st.accounts.get? i with
    | none =>
      rw [List.get?_eq_none] at hga
      omega
    | some a => exact ⟨a, rfl⟩
  simp only [addAccount, hfind, ha]
  refine ⟨trivial, by simp, trivial, ?_, ?_⟩
  · intro a' ha'
    injection ha' with ha'
    subst ha'
    rw [List.get?_eq_getElem?]
    rw [List.getElem?_set_self (by simpa using hlt)]
    rfl
  · intro j hj
    rw [List.get?_eq_getElem?, List.get?_eq_getElem?]
    exact List.getElem?_set_ne (Ne.symm hj)

/-- Witness for C10: updating a two-account pool at the matched index 1
leaves the count, the other account, and the matched account's `addedAt`
and `lastUsed` alone, and returns 1. -/
theorem addAccount_duplicate_frame_witness :
    wState.accounts.findIdx? (duplicateMatch wTok) = some 1 ∧
    (addAccount wState wTok 99).2 = 1 ∧
    (addAccount wState wTok 99).1.accounts.length = wState.accounts.length := by
  refine ⟨by decide, ?_, ?_⟩
  · exact (addAccount_duplicate_frame wState wTok 99 1 (by decide)).1
  · exact (addAccount_duplicate_frame wState wTok 99 1 (by decide)).2.1

/-! ## C6: selector safety and manager fallback -/

theorem enumFrom_fst_le {α : Type} :
    ∀ (l : List α) (k : Nat) (p : Nat × α), p ∈ enumFrom k l → k ≤ p.1 := by
  intro l
  induction l with
  | nil => intro k p h; cases h
  | cons x xs ih =>
    intro k p h
    rcases List.mem_cons.mp h with rfl | hm
    · exact le_refl _
    · exact Nat.le_of_succ_le (ih (k + 1) p hm)

theorem enumFrom_pairwise_fst {α : Type} :
    ∀ (l : List α) (k : Nat), (enumFrom k l).Pairwise (fun p q => p.1 < q.1) := by
  intro l
  induction l with
  | nil => intro _; exact List.Pairwise.nil
  | cons x xs ih =>
    intro k
    rw [enumFrom]
    refine List.pairwise_cons.mpr ⟨?_, ih (k + 1)⟩
    intro q hq
    exact Nat.lt_of_succ_le (enumFrom_fst_le xs (k + 1) q hq)

theorem enumFrom_get? {α : Type} :
    ∀ (l : List α) (k : Nat) (p : Nat × α), p ∈ enumFrom k l →
      k ≤ p.1 ∧ l.get? (p.1 - k) = some p.2 := by
  intro l
  induction l with
  | nil => intro k p h; cases h
  | cons x xs ih =>
    intro k p h
    rcases List.mem_cons.mp h with rfl | hm
    · exact ⟨le_refl _, by simp⟩
    · obtain ⟨hk, hget⟩ := ih (k + 1) p hm
      refine ⟨by omega, ?_⟩
      have harith : p.1 - k = (p.1 - (k + 1)) + 1 := by omega
      rw [harith]
      simpa using hget

theorem get?_mem_enumFrom {α : Type} :
    ∀ (l : List α) (k j : Nat) (a : α), l.get? j = some a → (k + j, a) ∈ enumFrom k l := by
  intro l
  induction l with
  | nil => intro k j a h; simp at h
  | cons x xs ih =>
    intro k j a h
    cases j with
    | zero =>
      injection h with h
      subst h
      rw [enumFrom]
      exact List.mem_cons_self _ _
    | succ j' =>
      have hmem := ih (k + 1) j' a (by simpa using h)
      rw [enumFrom]
      apply List.mem_cons_of_mem
      have harith : k + (j' + 1) = (k + 1) + j' := by omega
      rw [harith]
      exact hmem

theorem foldPickSooner_spec :
    ∀ (es : List (Nat × StoredAccount)) (e : Nat × StoredAccount),
      (e :: es).Pairwise (fun p q => p.1 < q.1) →
      (es.foldl pickSooner e) ∈ e :: es ∧
      ∀ x ∈ e :: es, resetVal (es.foldl pickSooner e).2 ≤ resetVal x.2 ∧
        (resetVal (es.foldl pickSooner e).2 = resetVal x.2 → (es.foldl pickSooner e).1 ≤ x.1) := by
  intro es
  induction es with
  | nil =>
    intro e _
    refine ⟨List.mem_cons_self _ _, ?_⟩
    intro x hx
    rcases List.mem_cons.mp hx with rfl | h
    · exact ⟨le_refl _, fun _ => le_refl _⟩
    · cases h
  | cons c es' ih =>
    intro e hpw
    rw [List.foldl_cons]
    rcases List.pairwise_cons.mp hpw with ⟨he, hcs⟩
    rcases List.pairwise_cons.mp hcs with ⟨hc, hes'⟩
    have hec : e.1 < c.1 := he c (List.mem_cons_self _ _)
    have hpw' : (pickSooner e c :: es').Pairwise (fun p q => p.1 < q.1) := by
      refine List.pairwise_cons.mpr ⟨?_, hes'⟩
      intro q hq
      rw [pickSooner]
      split
      · exact hc q hq
      · exact he q (List.mem_cons_of_mem _ hq)
    obtain ⟨hmem, hall⟩ := ih (pickSooner e c) hpw'
    have hpick_mem : pickSooner e c = e ∨ pickSooner e c = c := by
      rw [pickSooner]; split
      · exact Or.inr rfl
      · exact Or.inl rfl
    have hpick_le_e : resetVal (pickSooner e c).2 ≤ resetVal e.2 := by
      rw [pickSooner]; split
      · exact le_of_lt ‹_›
      · exact le_refl _
    have hpick_le_c : resetVal (pickSooner e c).2 ≤ resetVal c.2 := by
      rw [pickSooner]; split
      · exact le_refl _
      · exact le_of_not_lt ‹_›
    have hr_le_pick := (hall _ (List.mem_cons_self _ _)).1
    have hr_tie_pick := (hall _ (List.mem_cons_self _ _)).2
    constructor
    · rcases List.mem_cons.mp hmem with hm | hm
      · rcases hpick_mem with hp | hp
        · rw [hm, hp]; exact List.mem_cons_self _ _
        · rw [hm, hp]; exact List.mem_cons_of_mem _ (List.mem_cons_self _ _)
      · exact List.mem_cons_of_mem _ (List.mem_cons_of_mem _ hm)
    · have hFe : resetVal (es'.foldl pickSooner (pickSooner e c)).2 ≤ resetVal e.2 ∧
          (resetVal (es'.foldl pickSooner (pickSooner e c)).2 = resetVal e.2 →
            (es'.foldl pickSooner (pickSooner e c)).1 ≤ e.1) := by
        refine ⟨le_trans hr_le_pick hpick_le_e, ?_⟩
        intro htie
        rcases hpick_mem with hp | hp
        · have hpe2 : resetVal (pickSooner e c).2 = resetVal e.2 :=
            congrArg (fun z => resetVal z.2) hp
          have hle := hr_tie_pick (htie.trans hpe2.symm)
          exact le_trans hle (le_of_eq (congrArg Prod.fst hp))
        · have hlt : resetVal c.2 < resetVal e.2 := by
            by_contra hn
            rw [pickSooner, if_neg hn] at hp
            exact absurd (congrArg Prod.fst hp) (by omega)
          have hpc : resetVal (pickSooner e c).2 = resetVal c.2 := by rw [hp]
          have hcon : resetVal (es'.foldl pickSooner (pickSooner e c)).2 < resetVal e.2 :=
            lt_of_le_of_lt (le_trans hr_le_pick (le_of_eq hpc)) hlt
          rw [htie] at hcon
          exact absurd hcon (lt_irrefl _)
      have hFc : resetVal (es'.foldl pickSooner (pickSooner e c)).2 ≤ resetVal c.2 ∧
          (resetVal (es'.foldl pickSooner (pickSooner e c)).2 = resetVal c.2 →
            (es'.foldl pickSooner (pickSooner e c)).1 ≤ c.1) := by
        refine ⟨le_trans hr_le_pick hpick_le_c, ?_⟩
        intro htie
        rcases hpick_mem with hp | hp
        · have hpe : resetVal (pickSooner e c).2 = resetVal e.2 := by rw [hp]
          have hnlt : ¬resetVal c.2 < resetVal e.2 := by
            intro hlt
            rw [pickSooner, if_pos hlt] at hp
            exact absurd (congrArg Prod.fst hp) (by omega)
          have htie2 : resetVal (es'.foldl pickSooner (pickSooner e c)).2 =
              resetVal (pickSooner e c).2 := by
            apply le_antisymm hr_le_pick
            rw [hpe, htie]
            exact le_of_not_lt hnlt
          have hle := hr_tie_pick htie2
          have hle2 : (es'.foldl pickSooner (pickSooner e c)).1 ≤ e.1 :=
            le_trans hle (le_of_eq (congrArg Prod.fst hp))
          omega
        · have hpc2 : resetVal (pickSooner e c).2 = resetVal c.2 :=
            congrArg (fun z => resetVal z.2) hp
          have hle := hr_tie_pick (htie.trans hpc2.symm)
          exact le_trans hle (le_of_eq (congrArg Prod.fst hp))
      intro x hx
      rcases List.mem_cons.mp hx with h1 | hx1
      · subst h1
        exact hFe
      · rcases List.mem_cons.mp hx1 with h2 | hx2
        · subst h2
          exact hFc
        · exact hall x (List.mem_cons_of_mem _ hx2)

theorem hybridFilter_props {tokens : Nat → ℚ} {minHealth : ℚ} {a : AccountMetrics}
    (h : hybridFilter tokens minHealth a = true) :
    a.isRateLimited = false ∧ a.enabled = true ∧ minHealth ≤ a.healthScore ∧
      1 ≤ tokens a.index := by
  rw [hybridFilter] at h
  simp only [Bool.and_eq_true, Bool.not_eq_true', decide_eq_true_eq] at h
  exact ⟨h.1.1.1, h.1.1.2, h.1.2, h.2⟩

theorem scored_entry_origin {accounts : List AccountMetrics} {tokens : Nat → ℚ}
    {maxTokens now minHealth : ℚ} {cur : Option Nat} {e : ScoredAccount}
    (he : e ∈ hybridScored accounts tokens maxTokens now cur minHealth) :
    ∃ a ∈ accounts, hybridFilter tokens minHealth a = true ∧
      scoreCandidate tokens maxTokens now cur a = e := by
  rw [hybridScored] at he
  rcases List.mem_map.mp he with ⟨a, ha, hae⟩
  rcases List.mem_filter.mp ha with ⟨ha1, ha2⟩
  exact ⟨a, ha1, ha2, hae⟩

/-- Claim C6 (confirmed): hybrid selection only ever returns the index of an
account passing the candidate filter — not rate-limited, enabled, healthy,
holding at least one token; and when the dispatched selector yields nothing,
`selectAccount` returns the enabled account with the smallest reset time
(absence = infinity, ties to the smaller index), and none exactly when no
enabled account exists. -/
theorem selectAccount_candidate_safety :
    (∀ (accounts : List AccountMetrics) (tokens : Nat → ℚ) (maxTokens now : ℚ)
        (cur : Option Nat) (minHealth : ℚ) (i : Nat),
      selectHybridAccount accounts tokens maxTokens now cur minHealth = some i →
      ∃ a ∈ accounts, a.index = i ∧ a.isRateLimited = false ∧ a.enabled = true ∧
        minHealth ≤ a.healthScore ∧ 1 ≤ tokens a.index) ∧
    (∀ (st : ManagerState) (health tokens : Nat → ℚ) (maxTokens now : ℚ) (strategy : Strategy),
      primarySelection st health tokens maxTokens now strategy = none →
      ((selectAccountIndex st health tokens maxTokens now strategy = none ↔
          ∀ a ∈ st.accounts, a.enabled = false) ∧
        (∀ i, selectAccountIndex st health tokens maxTokens now strategy = some i →
          ∃ a, st.accounts.get? i = some a ∧ a.enabled = true ∧
            ∀ j b, st.accounts.get? j = some b → b.enabled = true →
              resetVal a ≤ resetVal b ∧ (resetVal a = resetVal b → i ≤ j)))) := by
  constructor
  · intro accounts tokens maxTokens now cur minHealth i h
    simp only [selectHybridAccount] at h
    by_cases hemp : (accounts.filter (hybridFilter tokens minHealth)).isEmpty = true
    · rw [if_pos hemp] at h; cases h
    · rw [if_neg hemp] at h
      have conclude : ∀ e : ScoredAccount,
          e ∈ sortScoredDesc (hybridScored accounts tokens maxTokens now cur minHealth) →
          e.index = i →
          ∃ a ∈ accounts, a.index = i ∧ a.isRateLimited = false ∧ a.enabled = true ∧
            minHealth ≤ a.healthScore ∧ 1 ≤ tokens a.index := by
        intro e hmem hidx
        have he2 := (mem_sortScoredDesc _ _).mp hmem
        rcases scored_entry_origin he2 with ⟨a, ha, hfil, hsc⟩
        obtain ⟨h1, h2, h3, h4⟩ := hybridFilter_props hfil
        refine ⟨a, ha, ?_, h1, h2, h3, h4⟩
        rw [← hidx, ← hsc]
        rfl
      split at h
      next hh => exact absurd h (by simp)
      next best hh =>
        have hbestmem : best ∈
            sortScoredDesc (hybridScored accounts tokens maxTokens now cur minHealth) :=
          List.mem_of_mem_head? (by rw [hh]; rfl)
        split at h
        next cc hf =>
          split at h
          · injection h with h
            exact conclude cc (List.mem_of_find?_eq_some hf) h
          · injection h with h
            exact conclude best hbestmem h
        next hf =>
          injection h with h
          exact conclude best hbestmem h
  · intro st health tokens maxTokens now strategy hnone
    simp only [selectAccountIndex, hnone]
    by_cases hlen : (st.accounts.length == 0) = true
    · rw [if_pos hlen]
      have hnil : st.accounts = [] := List.length_eq_zero.mp (by simpa using hlen)
      constructor
      · constructor
        · intro _ a ha
          rw [hnil] at ha
          cases ha
        · intro _
          rfl
      · intro i hi
        cases hi
    · rw [if_neg hlen]
      cases hfil : (enumFrom 0 st.accounts).filter (fun p => p.2.enabled) with
      | nil =>
        constructor
        · constructor
          · intro _ a ha
            rcases List.get?_of_mem ha with ⟨j, hj⟩
            have hmem := get?_mem_enumFrom st.accounts 0 j a hj
            have := List.filter_eq_nil_iff.mp hfil _ (by simpa using hmem)
            simpa using this
          · intro _
            rfl
        · intro i hi
          cases hi
      | cons e es =>
        have hpw : (e :: es).Pairwise (fun p q : Nat × StoredAccount => p.1 < q.1) := by
          rw [← hfil]
          exact (enumFrom_pairwise_fst st.accounts 0).filter _
        obtain ⟨hrmem, hrall⟩ := foldPickSooner_spec es e hpw
        have hrfil : es.foldl pickSooner e ∈
            (enumFrom 0 st.accounts).filter (fun p => p.2.enabled) := by
          rw [hfil]
          exact hrmem
        obtain ⟨hrenum, hren⟩ := List.mem_filter.mp hrfil
        obtain ⟨_, hrget⟩ := enumFrom_get? st.accounts 0 _ hrenum
        constructor
        · constructor
          · intro hcon
            cases hcon
          · intro hall2
            have := hall2 (es.foldl pickSooner e).2 (List.get?_mem (by simpa using hrget))
            rw [this] at hren
            cases hren
        · intro i hi
          injection hi with hi
          subst hi
          refine ⟨(es.foldl pickSooner e).2, by simpa using hrget, by simpa using hren, ?_⟩
          intro j b hjb hben
          have hmem2 : (0 + j, b) ∈ enumFrom 0 st.accounts :=
            get?_mem_enumFrom st.accounts 0 j b hjb
          have hmem3 : (j, b) ∈ (enumFrom 0 st.accounts).filter (fun p => p.2.enabled) :=
            List.mem_filter.mpr ⟨by simpa using hmem2, by simpa using hben⟩
          rw [hfil] at hmem3
          exact hrall (j, b) hmem3

/-- Witness for C6: a healthy singleton pool is selected by the hybrid
filter, and with every account rate-limited the fallback takes over. -/
theorem selectAccount_candidate_safety_witness :
    (selectHybridAccount [wMetric0] (fun _ => 50) 50 0 none 50 = some 0 ∧
      ∃ a ∈ [wMetric0], a.index = 0 ∧ a.isRateLimited = false ∧ a.enabled = true ∧
        (50 : ℚ) ≤ a.healthScore ∧ 1 ≤ (fun _ => (50 : ℚ)) a.index) ∧
    (primarySelection wStateRL (fun _ => 70) (fun _ => 50) 50 100 Strategy.hybrid = none ∧
      ∀ i, selectAccountIndex wStateRL (fun _ => 70) (fun _ => 50) 50 100 Strategy.hybrid = some i →
        ∃ a, wStateRL.accounts.get? i = some a ∧ a.enabled = true ∧
          ∀ j b, wStateRL.accounts.get? j = some b → b.enabled = true →
            resetVal a ≤ resetVal b ∧ (resetVal a = resetVal b → i ≤ j)) := by
  constructor
  · exact ⟨by decide,
      selectAccount_candidate_safety.1 [wMetric0] (fun _ => 50) 50 0 none 50 0 (by decide)⟩
  · exact ⟨by decide,
      (selectAccount_candidate_safety.2 wStateRL (fun _ => 70) (fun _ => 50) 50 100
        Strategy.hybrid (by decide)).2⟩

/-! ## C1: anti-flap threshold -/

theorem scored_index_eq {tokens : Nat → ℚ} {maxTokens now : ℚ} {cur : Option Nat}
    (a : AccountMetrics) : (scoreCandidate tokens maxTokens now cur a).index = a.index := rfl

theorem scored_map_index_nodup {accounts : List AccountMetrics} {tokens : Nat → ℚ}
    {maxTokens now minHealth : ℚ} {cur : Option Nat}
    (hnd : (accounts.map (fun a => a.index)).Nodup) :
    ((hybridScored accounts tokens maxTokens now cur minHealth).map
      (fun e => e.index)).Nodup := by
  rw [hybridScored, List.map_map]
  have heq : (accounts.filter (hybridFilter tokens minHealth)).map
      ((fun e : ScoredAccount => e.index) ∘ scoreCandidate tokens maxTokens now cur) =
      (accounts.filter (hybridFilter tokens minHealth)).map (fun a => a.index) :=
    List.map_congr_left (fun a _ => rfl)
  rw [heq]
  exact List.Nodup.sublist (List.Sublist.map _ (List.filter_sublist _)) hnd

theorem scored_isCurrent_iff {accounts : List AccountMetrics} {tokens : Nat → ℚ}
    {maxTokens now minHealth : ℚ} {c : Nat} {e : ScoredAccount}
    (he : e ∈ hybridScored accounts tokens maxTokens now (some c) minHealth) :
    e.isCurrent = true ↔ e.index = c := by
  rcases scored_entry_origin he with ⟨a, _, _, hsc⟩
  rw [← hsc]
  show (some c == some a.index) = true ↔ a.index = c
  rw [beq_iff_eq]
  constructor
  · intro h
    injection h with h
    exact h.symm
  · intro h
    rw [h]

theorem scored_score_eq {accounts : List AccountMetrics} {tokens : Nat → ℚ}
    {maxTokens now minHealth : ℚ} {cur : Option Nat} {e : ScoredAccount}
    (he : e ∈ hybridScored accounts tokens maxTokens now cur minHealth) :
    e.score = e.baseScore + (if e.isCurrent = true then STICKINESS_BONUS else 0) := by
  rcases scored_entry_origin he with ⟨a, _, _, hsc⟩
  rw [← hsc]
  rfl

theorem scored_current_unique {accounts : List AccountMetrics} {tokens : Nat → ℚ}
    {maxTokens now minHealth : ℚ} {c : Nat} {e1 e2 : ScoredAccount}
    (hnd : (accounts.map (fun a => a.index)).Nodup)
    (h1 : e1 ∈ hybridScored accounts tokens maxTokens now (some c) minHealth)
    (h2 : e2 ∈ hybridScored accounts tokens maxTokens now (some c) minHealth)
    (hc1 : e1.isCurrent = true) (hc2 : e2.isCurrent = true) : e1 = e2 := by
  have hidx : e1.index = e2.index := by
    rw [(scored_isCurrent_iff h1).mp hc1, (scored_isCurrent_iff h2).mp hc2]
  exact List.inj_on_of_nodup_map (scored_map_index_nodup hnd) h1 h2 hidx

/-- Claim C1 (confirmed): granted that the active account and some other
account pass the candidate filter, the hybrid selector moves off the active
account only when the best non-active base score exceeds the active base
score by strictly more than `SWITCH_THRESHOLD` (indeed by at least the
stickiness bonus); at an advantage of exactly the threshold it returns the
active index. -/
theorem selectHybrid_anti_flap (accounts : List AccountMetrics) (tokens : Nat → ℚ)
    (maxTokens now : ℚ) (c : Nat) (minHealth : ℚ)
    (hnd : (accounts.map (fun a => a.index)).Nodup)
    (hact : ∃ a ∈ accounts, a.index = c ∧ hybridFilter tokens minHealth a = true)
    (hnon : ∃ a ∈ accounts, a.index ≠ c ∧ hybridFilter tokens minHealth a = true) :
    (∀ i, selectHybridAccount accounts tokens maxTokens now (some c) minHealth = some i →
      i ≠ c →
      SWITCH_THRESHOLD <
        maxBaseScore (nonActiveScored accounts tokens maxTokens now c minHealth) -
          activeBaseScore accounts tokens maxTokens now c minHealth) ∧
    (maxBaseScore (nonActiveScored accounts tokens maxTokens now c minHealth) -
        activeBaseScore accounts tokens maxTokens now c minHealth = SWITCH_THRESHOLD →
      selectHybridAccount accounts tokens maxTokens now (some c) minHealth = some c) := by
  obtain ⟨a0, ha0mem, ha0idx, ha0fil⟩ := hact
  have haemem : scoreCandidate tokens maxTokens now (some c) a0 ∈
      hybridScored accounts tokens maxTokens now (some c) minHealth :=
    List.mem_map_of_mem _ (List.mem_filter.mpr ⟨ha0mem, ha0fil⟩)
  have haecur : (scoreCandidate tokens maxTokens now (some c) a0).isCurrent = true :=
    (scored_isCurrent_iff haemem).mpr ha0idx
  have haes : scoreCandidate tokens maxTokens now (some c) a0 ∈
      sortScoredDesc (hybridScored accounts tokens maxTokens now (some c) minHealth) :=
    (mem_sortScoredDesc _ _).mpr haemem
  have hne : ¬(accounts.filter (hybridFilter tokens minHealth)).isEmpty = true := by
    intro he
    have hmem := List.mem_filter.mpr ⟨ha0mem, ha0fil⟩
    rw [List.isEmpty_iff.mp he] at hmem
    cases hmem
  obtain ⟨eu, hfu⟩ : ∃ eu,
      (hybridScored accounts tokens maxTokens now (some c) minHealth).find?
        (fun e => e.isCurrent) = some eu := by
    cases hf : (hybridScored accounts tokens maxTokens now (some c) minHealth).find?
        (fun e => e.isCurrent) with
    | none =>
      exact absurd haecur (List.find?_eq_none.mp hf _ haemem)
    | some eu => exact ⟨eu, rfl⟩
  have heuae : eu = scoreCandidate tokens maxTokens now (some c) a0 :=
    scored_current_unique hnd (List.mem_of_find?_eq_some hfu) haemem
      (List.find?_some hfu) haecur
  have hactiveBase : activeBaseScore accounts tokens maxTokens now c minHealth =
      (scoreCandidate tokens maxTokens now (some c) a0).baseScore := by
    rw [activeBaseScore, hfu, heuae]
  obtain ⟨b0, hb0mem, hb0idx, hb0fil⟩ := hnon
  have hbemem : scoreCandidate tokens maxTokens now (some c) b0 ∈
      hybridScored accounts tokens maxTokens now (some c) minHealth :=
    List.mem_map_of_mem _ (List.mem_filter.mpr ⟨hb0mem, hb0fil⟩)
  have hbecur : (scoreCandidate tokens maxTokens now (some c) b0).isCurrent = false := by
    cases hcb : (scoreCandidate tokens maxTokens now (some c) b0).isCurrent with
    | false => rfl
    | true => exact absurd ((scored_isCurrent_iff hbemem).mp hcb) hb0idx
  have hpws := sortScoredDesc_pairwise (hybridScored accounts tokens maxTokens now (some c) minHealth)
  have hscoreAe : (scoreCandidate tokens maxTokens now (some c) a0).score =
      (scoreCandidate tokens maxTokens now (some c) a0).baseScore + STICKINESS_BONUS := by
    rw [scored_score_eq haemem, if_pos haecur]
  constructor
  · intro i hres hic
    simp only [selectHybridAccount] at hres
    rw [if_neg hne] at hres
    split at hres
    next hh => exact absurd hres (by simp)
    next best hh =>
      have hbestmem : best ∈
          sortScoredDesc (hybridScored accounts tokens maxTokens now (some c) minHealth) :=
        List.mem_of_mem_head? (by rw [hh]; rfl)
      have hbestmem2 := (mem_sortScoredDesc _ _).mp hbestmem
      have hbestmax := head_score_max hpws hh
      have hkey : best.isCurrent = false →
          SWITCH_THRESHOLD <
            maxBaseScore (nonActiveScored accounts tokens maxTokens now c minHealth) -
              activeBaseScore accounts tokens maxTokens now c minHealth := by
        intro hbc
        have hbNA : best ∈ nonActiveScored accounts tokens maxTokens now c minHealth :=
          List.mem_filter.mpr ⟨hbestmem2, by simp [hbc]⟩
        have h1 : best.baseScore ≤
            maxBaseScore (nonActiveScored accounts tokens maxTokens now c minHealth) :=
          le_maxBaseScore hbNA
        have hbs : best.score = best.baseScore := by
          rw [scored_score_eq hbestmem2, hbc]
          simp
        have h2 := hbestmax _ haes
        rw [hscoreAe, hbs] at h2
        rw [hactiveBase]
        have : (100 : ℚ) < (150 : ℚ) := by norm_num
        rw [SWITCH_THRESHOLD]
        rw [STICKINESS_BONUS] at h2
        linarith
      split at hres
      next cc hf =>
        have hccmem2 := (mem_sortScoredDesc _ _).mp (List.mem_of_find?_eq_some hf)
        have hcccur := List.find?_some hf
        have hccidx : cc.index = c := (scored_isCurrent_iff hccmem2).mp hcccur
        split at hres
        · injection hres with hres
          exact absurd (hres ▸ hccidx : i = c) hic
        · injection hres with hres
          have hbc : best.isCurrent = false := by
            cases hcb : best.isCurrent with
            | false => rfl
            | true =>
              have : best.index = c := (scored_isCurrent_iff hbestmem2).mp hcb
              exact absurd (hres ▸ this : i = c) hic
          exact hkey hbc
      next hf =>
        have : (scoreCandidate tokens maxTokens now (some c) a0).isCurrent = false :=
          Bool.not_eq_true _ ▸ (List.find?_eq_none.mp hf _
            ((mem_sortScoredDesc _ _).mpr haemem))
        rw [haecur] at this
        cases this
  · intro hadv
    have hallNA : ∀ e ∈ nonActiveScored accounts tokens maxTokens now c minHealth,
        e.baseScore ≤ maxBaseScore (nonActiveScored accounts tokens maxTokens now c minHealth) :=
      fun e he => le_maxBaseScore he
    obtain ⟨best, hh⟩ : ∃ b,
        (sortScoredDesc (hybridScored accounts tokens maxTokens now (some c) minHealth)).head? =
          some b := by
      cases hsort : sortScoredDesc (hybridScored accounts tokens maxTokens now (some c) minHealth) with
      | nil => rw [hsort] at haes; cases haes
      | cons b t => exact ⟨b, rfl⟩
    have hbestmem : best ∈
        sortScoredDesc (hybridScored accounts tokens maxTokens now (some c) minHealth) :=
      List.mem_of_mem_head? (by rw [hh]; rfl)
    have hbestmem2 := (mem_sortScoredDesc _ _).mp hbestmem
    have hbestmax := head_score_max hpws hh
    have hbestcur : best.isCurrent = true := by
      cases hcb : best.isCurrent with
      | true => rfl
      | false =>
        have hbNA : best ∈ nonActiveScored accounts tokens maxTokens now c minHealth :=
          List.mem_filter.mpr ⟨hbestmem2, by simp [hcb]⟩
        have h1 : best.baseScore ≤
            maxBaseScore (nonActiveScored accounts tokens maxTokens now c minHealth) :=
          le_maxBaseScore hbNA
        have hbs : best.score = best.baseScore := by
          rw [scored_score_eq hbestmem2, hcb]
          simp
        have h2 := hbestmax _ haes
        rw [hscoreAe, hbs] at h2
        rw [hactiveBase] at hadv
        rw [SWITCH_THRESHOLD] at hadv
        rw [STICKINESS_BONUS] at h2
        exfalso
        linarith
    have hbidx : best.index = c := (scored_isCurrent_iff hbestmem2).mp hbestcur
    simp only [selectHybridAccount]
    rw [if_neg hne]
    rw [hh]
    cases hf : (sortScoredDesc (hybridScored accounts tokens maxTokens now (some c) minHealth)).find?
        (fun s => s.isCurrent) with
    | some cc =>
      simp [hbestcur, hbidx]
    | none =>
      simp [hbidx]

/-- Witness for C1: two full-token candidates whose base scores differ by
exactly the threshold (health 50 vs 100); the selector keeps the active
index 0. -/
theorem selectHybrid_anti_flap_witness :
    (([wM0, wM1].map (fun a => a.index)).Nodup) ∧
    (∃ a ∈ [wM0, wM1], a.index = 0 ∧ hybridFilter wTokensFn 50 a = true) ∧
    (∃ a ∈ [wM0, wM1], a.index ≠ 0 ∧ hybridFilter wTokensFn 50 a = true) ∧
    (maxBaseScore (nonActiveScored [wM0, wM1] wTokensFn 50 1000000 0 50) -
        activeBaseScore [wM0, wM1] wTokensFn 50 1000000 0 50 = SWITCH_THRESHOLD →
      selectHybridAccount [wM0, wM1] wTokensFn 50 1000000 (some 0) 50 = some 0) :=
  ⟨by decide, by decide, by decide,
    (selectHybrid_anti_flap [wM0, wM1] wTokensFn 50 1000000 0 50
      (by decide) (by decide) (by decide)).2⟩

/-! ## C5: persistence round trip -/

theorem set_self_of_get? {α : Type} :
    ∀ (l : List α) (n : Nat) (b : α), l.get? n = some b → l.set n b = l := by
  intro l
  induction l with
  | nil => intro n b h; simp at h
  | cons x xs ih =>
    intro n b h
    cases n with
    | zero =>
      injection h with h
      subst h
      rfl
    | succ n' =>
      show x :: xs.set n' b = x :: xs
      rw [ih n' b (by simpa using h)]

theorem lookup_eq_none_of_keys_ne (m : List (String × StoredAccount)) (k : String)
    (h : ∀ p ∈ m, p.1 ≠ k) : m.lookup k = none := by
  induction m with
  | nil => rfl
  | cons p ps ih =>
    cases p with
    | mk k' v =>
      rw [List.lookup_cons]
      have hne : (k == k') = false :=
        beq_eq_false_iff_ne.mpr (fun he => h (k', v) (List.mem_cons_self _ _) he.symm)
      rw [hne]
      exact ih (fun p hp => h p (List.mem_cons_of_mem _ hp))

theorem dedup_foldl_eq :
    ∀ (l : List StoredAccount) (m : List (String × StoredAccount)),
      (m.map (fun p => p.1) ++ l.map (fun a => a.refreshToken)).Nodup →
      l.foldl dedupStep m = m ++ l.map (fun a => (a.refreshToken, a)) := by
  intro l
  induction l with
  | nil => intro m _; simp
  | cons a rest ih =>
    intro m hnd
    rw [List.foldl_cons]
    have hdisj := List.disjoint_of_nodup_append hnd
    have hk : ∀ p ∈ m, p.1 ≠ a.refreshToken := by
      intro p hp he
      exact hdisj (List.mem_map_of_mem _ hp)
        (by rw [List.map_cons]; exact he ▸ List.mem_cons_self _ _)
    have hstep : dedupStep m a = m ++ [(a.refreshToken, a)] := by
      rw [dedupStep, lookup_eq_none_of_keys_ne m _ hk]
    rw [hstep]
    have hnd' : ((m ++ [(a.refreshToken, a)]).map (fun p => p.1) ++
        rest.map (fun x => x.refreshToken)).Nodup := by
      simpa [List.map_append, List.append_assoc] using hnd
    rw [ih _ hnd']
    simp

theorem deduplicateAccounts_eq_self (l : List StoredAccount)
    (hnd : (l.map (fun a => a.refreshToken)).Nodup) : deduplicateAccounts l = l := by
  rw [deduplicateAccounts, dedup_foldl_eq l [] (by simpa using hnd)]
  simp only [List.nil_append, List.map_map]
  have hcomp : ((fun p : String × StoredAccount => p.2) ∘ fun a => (a.refreshToken, a)) =
      fun a => a := rfl
  rw [hcomp, List.map_id']

theorem loadAccounts_saveToDisk (st : ManagerState) (hInv : ManagerInv st)
    (hne : st.accounts ≠ []) :
    ∃ k, st.activeIndex = some k ∧
      loadAccounts (saveToDisk st) =
        { version := 1, accounts := st.accounts, activeIndex := k } := by
  obtain ⟨hne', hnd, hidx⟩ := hInv
  cases hai : st.activeIndex with
  | none =>
    have h3 := hidx hne
    rw [hai] at h3
    exact h3.elim
  | some k =>
    have h3 := hidx hne
    rw [hai] at h3
    refine ⟨k, rfl, ?_⟩
    have hsave : saveToDisk st = { version := 1, accounts := st.accounts, activeIndex := k } := by
      rw [saveToDisk, hai]
      rfl
    have hfil : st.accounts.filter (fun a => !(a.refreshToken == "")) = st.accounts :=
      List.filter_eq_self.mpr (fun a ha => by simpa using hne' a ha)
    have hlen : 0 < st.accounts.length := List.length_pos.mpr hne
    have hk : k < st.accounts.length := h3
    rw [hsave]
    simp only [loadAccounts, hfil, deduplicateAccounts_eq_self st.accounts hnd]
    have hclamp : (if st.accounts.length > 0
        then min (max k 0) (st.accounts.length - 1) else 0) = k := by
      rw [if_pos hlen, Nat.max_zero]
      exact Nat.min_eq_left (by omega)
    rw [hclamp]

theorem manager_inv_set (st : ManagerState) (i : Nat) (a a' : StoredAccount)
    (ha : st.accounts.get? i = some a) (hrt : a'.refreshToken = a.refreshToken)
    (hInv : ManagerInv st) : ManagerInv { st with accounts := st.accounts.set i a' } := by
  obtain ⟨h1, h2, h3⟩ := hInv
  have hmap : (st.accounts.set i a').map (fun x => x.refreshToken) =
      st.accounts.map (fun x => x.refreshToken) := by
    rw [List.map_set]
    apply set_self_of_get?
    rw [List.get?_map, ha, hrt]
    rfl
  refine ⟨?_, ?_, ?_⟩
  · intro x hx
    rcases List.mem_or_eq_of_mem_set hx with hx1 | hx2
    · exact h1 x hx1
    · rw [hx2, hrt]
      exact h1 a (List.get?_mem ha)
  · show ((st.accounts.set i a').map (fun x => x.refreshToken)).Nodup
    rw [hmap]
    exact h2
  · intro hne
    have hne2 : st.accounts ≠ [] := by
      intro h0
      rw [h0] at hne
      exact hne rfl
    have h3' := h3 hne2
    cases hai : st.activeIndex with
    | none =>
      rw [hai] at h3'
      exact h3'.elim
    | some k =>
      rw [hai] at h3'
      have hk : k < st.accounts.length := h3'
      show k < (st.accounts.set i a').length
      simpa [List.length_set] using hk

theorem nodup_set_of_ne {α : Type} [DecidableEq α] :
    ∀ (l : List α) (i : Nat) (v : α), l.Nodup →
      (∀ j x, j ≠ i → l.get? j = some x → x ≠ v) → (l.set i v).Nodup := by
  intro l
  induction l with
  | nil => intro i v _ _; simp
  | cons x xs ih =>
    intro i v hnd hother
    cases i with
    | zero =>
      show (v :: xs).Nodup
      rw [List.nodup_cons]
      refine ⟨?_, (List.nodup_cons.mp hnd).2⟩
      intro hv
      rcases List.get?_of_mem hv with ⟨j, hj⟩
      exact hother (j + 1) v (by omega) (by simpa using hj) rfl
    | succ i' =>
      show (x :: xs.set i' v).Nodup
      rw [List.nodup_cons]
      obtain ⟨hx, hxs⟩ := List.nodup_cons.mp hnd
      refine ⟨?_, ih i' v hxs ?_⟩
      · intro hmem
        rcases List.mem_or_eq_of_mem_set hmem with hm | hm
        · exact hx hm
        · exact hother 0 x (by omega) rfl hm
      · intro j y hj hy
        exact hother (j + 1) y (by omega) (by simpa using hy)

theorem manager_inv_append (st : ManagerState) (na : StoredAccount)
    (hrt : na.refreshToken ≠ "")
    (hnotmem : ∀ a ∈ st.accounts, a.refreshToken ≠ na.refreshToken)
    (hInv : ManagerInv st) :
    ManagerInv { accounts := st.accounts ++ [na],
                 activeIndex :=
                   if (st.accounts ++ [na]).length == 1 then some 0 else st.activeIndex } := by
  obtain ⟨h1, h2, h3⟩ := hInv
  refine ⟨?_, ?_, ?_⟩
  · intro x hx
    rcases List.mem_append.mp hx with hx1 | hx2
    · exact h1 x hx1
    · rw [List.mem_singleton] at hx2
      rw [hx2]
      exact hrt
  · show ((st.accounts ++ [na]).map (fun x => x.refreshToken)).Nodup
    rw [List.map_append, List.nodup_append]
    refine ⟨h2, by simp, ?_⟩
    intro x hx1 hx2
    have hx2' : x = na.refreshToken := by simpa using hx2
    rcases List.mem_map.mp hx1 with ⟨b, hb, hbx⟩
    exact hnotmem b hb (by rw [hbx, hx2'])
  · intro _
    by_cases hone : ((st.accounts ++ [na]).length == 1) = true
    · show (match (if (st.accounts ++ [na]).length == 1 then some 0 else st.activeIndex) with
        | some k => k < (st.accounts ++ [na]).length
        | none => False)
      rw [if_pos hone]
      show 0 < (st.accounts ++ [na]).length
      simp
    · show (match (if (st.accounts ++ [na]).length == 1 then some 0 else st.activeIndex) with
        | some k => k < (st.accounts ++ [na]).length
        | none => False)
      rw [if_neg hone]
      have hne2 : st.accounts ≠ [] := by
        intro h0
        rw [h0] at hone
        exact hone rfl
      have h3' := h3 hne2
      cases hai : st.activeIndex with
      | none =>
        rw [hai] at h3'
        exact h3'.elim
      | some k =>
        rw [hai] at h3'
        have hk : k < st.accounts.length := h3'
        show k < (st.accounts ++ [na]).length
        rw [List.length_append]
        omega

theorem applyOp_inv (st : ManagerState) (op : ManagerOp) (hInv : ManagerInv st)
    (hsafe : OpSafe st op) : ManagerInv (applyOp st op) := by
  cases op with
  | success i now =>
    show ManagerInv (recordSuccess st i now)
    rw [recordSuccess]
    cases ha : st.accounts.get? i with
    | none => exact hInv
    | some a => exact manager_inv_set st i a _ ha rfl hInv
  | rateLimited i reason now =>
    show ManagerInv (markRateLimited st i reason now)
    rw [markRateLimited]
    cases ha : st.accounts.get? i with
    | none => exact hInv
    | some a => exact manager_inv_set st i a _ ha rfl hInv
  | failure i =>
    show ManagerInv (recordFailure st i)
    rw [recordFailure]
    cases ha : st.accounts.get? i with
    | none => exact hInv
    | some a => exact manager_inv_set st i a _ ha rfl hInv
  | add tok now =>
    obtain ⟨h1, h2, h3⟩ := hInv
    obtain ⟨hre, hmatch⟩ := hsafe
    show ManagerInv (addAccount st tok now).1
    cases hf : st.accounts.findIdx? (duplicateMatch tok) with
    | some i =>
      have hrest : ∀ p ∈ enumFrom 0 st.accounts, p.1 ≠ i →
          p.2.refreshToken ≠ tok.refresh := by
        rw [hf] at hmatch
        exact hmatch
      have hlt : i < st.accounts.length := (List.findIdx?_eq_some_iff_findIdx_eq.mp hf).1
      obtain ⟨ex, hex⟩ : ∃ ex, st.accounts.get? i = some ex := by
        cases hga : st.accounts.get? i with
        | none =>
          rw [List.get?_eq_none] at hga
          omega
        | some ex => exact ⟨ex, rfl⟩
      simp only [addAccount, hf, hex]
      refine ⟨?_, ?_, ?_⟩
      · intro x hx
        rcases List.mem_or_eq_of_mem_set hx with hx1 | hx2
        · exact h1 x hx1
        · rw [hx2]
          exact hre
      · show ((st.accounts.set i _).map (fun x => x.refreshToken)).Nodup
        rw [List.map_set]
        apply nodup_set_of_ne _ _ _ h2
        intro j x hj hx
        rw [List.get?_map] at hx
        cases hb : st.accounts.get? j with
        | none => rw [hb] at hx; cases hx
        | some b =>
          rw [hb] at hx
          injection hx with hx
          rw [← hx]
          exact hrest (j, b) (by simpa using get?_mem_enumFrom st.accounts 0 j b hb) hj
      · intro hne
        have hne2 : st.accounts ≠ [] := by
          intro h0
          rw [h0] at hne
          exact hne rfl
        have h3' := h3 hne2
        cases hai : st.activeIndex with
        | none =>
          rw [hai] at h3'
          exact h3'.elim
        | some k =>
          rw [hai] at h3'
          have hk : k < st.accounts.length := h3'
          show k < (st.accounts.set i _).length
          simpa [List.length_set] using hk
    | none =>
      have hnotmem : ∀ a ∈ st.accounts, a.refreshToken ≠ tok.refresh := by
        intro a ha he
        have hfa := List.findIdx?_eq_none_iff.mp hf a ha
        rw [duplicateMatch] at hfa
        have h1a : (a.refreshToken == tok.refresh) = false := by
          cases hx : (a.refreshToken == tok.refresh) with
          | false => rfl
          | true => rw [hx] at hfa; simp at hfa
        exact beq_eq_false_iff_ne.mp h1a he
      simp only [addAccount, hf]
      exact manager_inv_append st _ hre hnotmem ⟨h1, h2, h3⟩

theorem safeTrace_inv :
    ∀ (ops : List ManagerOp) (st : ManagerState),
      ManagerInv st → SafeTrace st ops → ManagerInv (applyOps st ops) := by
  intro ops
  induction ops with
  | nil => intro st h _; exact h
  | cons op rest ih =>
    intro st h hs
    obtain ⟨h1, h2⟩ := hs
    exact ih (applyOp st op) (applyOp_inv st op h h1) h2

/-- Claim C5 (corrected): for any sequence of the four operations in which
every `add_account` carries a non-empty refresh token and the duplicate
update never copies another account's refresh token onto the matched one,
the save-then-load round trip reproduces the in-memory account set exactly
and the loaded active index equals the in-memory one (which is defined
whenever the pool is non-empty). -/
theorem manager_save_load_roundTrip (st0 : ManagerState) (ops : List ManagerOp)
    (h0 : ManagerInv st0) (hs : SafeTrace st0 ops) :
    ManagerInv (applyOps st0 ops) ∧
    ((applyOps st0 ops).accounts ≠ [] →
      ∃ k, (applyOps st0 ops).activeIndex = some k ∧
        loadAccounts (saveToDisk (applyOps st0 ops)) =
          { version := 1, accounts := (applyOps st0 ops).accounts, activeIndex := k }) := by
  have hInv := safeTrace_inv ops st0 h0 hs
  exact ⟨hInv, fun hne => loadAccounts_saveToDisk _ hInv hne⟩

/-- Witness for C5: adding one account and recording a success, then saving
and loading, reproduces the state. -/
theorem manager_save_load_roundTrip_witness :
    ManagerInv initialManagerState ∧
    SafeTrace initialManagerState wOps ∧
    (applyOps initialManagerState wOps).accounts ≠ [] ∧
    (∃ k, (applyOps initialManagerState wOps).activeIndex = some k ∧
      loadAccounts (saveToDisk (applyOps initialManagerState wOps)) =
        { version := 1, accounts := (applyOps initialManagerState wOps).accounts,
          activeIndex := k }) :=
  have hInv : ManagerInv initialManagerState :=
    ⟨fun a ha => absurd ha (List.not_mem_nil a), List.nodup_nil, fun h => absurd rfl h⟩
  have hSafe : SafeTrace initialManagerState wOps :=
    ⟨⟨by decide, trivial⟩, trivial, trivial⟩
  ⟨hInv, hSafe, by decide,
    (manager_save_load_roundTrip initialManagerState wOps hInv hSafe).2 (by decide)⟩

/-- Counterexample to C5 as stated: an `add_account` carrying an empty
refresh token yields an in-memory account that `loadAccounts` discards, so
the loaded set differs from the in-memory set before the save. -/
theorem manager_save_load_cx :
    (loadAccounts (saveToDisk (applyOps initialManagerState [ManagerOp.add wTokEmpty 5]))).accounts ≠
      (applyOps initialManagerState [ManagerOp.add wTokEmpty 5]).accounts := by
  decide

end CodexSwitch
